import Mathlib

/-!
# A verification development for the ai-chat-sdk request orchestration engine

This file shallowly embeds the Go orchestration engine of the `ai-chat-sdk`
repository in Lean 4 and settles the behavioural claims of its specification
against that embedding.

The embedding follows the Go sources function by function:

* `sdk.go` (the `aichat` package): `SDK.Chat`, `determineMode`,
  `executeExpertMode`, `executeAgenticMode`, `selectVariant`, `buildPrompt`,
  `buildAgentMessages`, `buildResponseFormat`, `buildLLMTools`,
  `executeToolCall`, `validateResponse`, `storeMessages` and the JSON-schema
  helpers;
* `config.go`: the data model (`Skill`, `SkillVariant`, `OutputSchema`,
  `PropertySchema`, `Source`, `Action`, `ChatResult`, ...) and
  `Config.withDefaults`;
* `errors.go`: `SDKError` and the error constructors;
* `router.go` and `skills/registry.go`: routing;
* `tools/registry.go`: `GetForSkill`;
* `agentic/pkg/agent/skills/ab.go`: the `ABSelector` variant-selection
  policies, including a bit-precise SHA-256.

Modelling conventions:

* Go `any` JSON values become the inductive `Json`; machine integers become
  `Int`/`Nat` (the quantities involved stay far from the `int64` range, so no
  wrap-around is modelled); Go's `%` on integers is `Int.tmod`, which has the
  same truncated semantics.
* Fallible Go calls return `Except`; a Go runtime panic (such as the integer
  division by zero reachable in `selectVariant`) is the explicit
  `RunFailure.goPanic` outcome, which propagates like Go panics do.
* Wall-clock time is a tick counter threaded through the run state; `uuid.New`
  is an id supply `uuid-<n>` from the same state, preserving exactly the
  properties the code relies on (freshness and non-emptiness).
* The run additionally records an observability trace of events (LM calls,
  tool executions, message persistence) so that temporal claims about
  ordering become statements about the trace.  The trace is write-only
  instrumentation: no engine branch reads it.
-/

namespace AiChatSdk

/-- JSON values, the model of Go's `any`/`json.RawMessage` payloads.  Objects
keep their fields as an association list in a fixed order (Go's
`encoding/json` marshals maps with sorted keys; the embedding simply keeps
the order in which a value was built, which no verified claim depends on). -/
inductive Json where
  | str (s : String)
  | num (n : Int)
  | bool (b : Bool)
  | null
  | arr (elems : List Json)
  | obj (fields : List (String × Json))

/-- Field lookup in a JSON object, the model of Go's `data[key]` map access
after `json.Unmarshal` into `map[string]any`. -/
def lookupField (fields : List (String × Json)) (k : String) : Option Json :=
  (fields.find? (fun p => p.1 = k)).map (·.2)

mutual

/-- Compact JSON rendering, the model of `json.Marshal`/`json.MarshalIndent`.
Whitespace and string escaping details are immaterial to every claim below;
what matters is that rendering is a fixed injective-enough function used in
prompt text. -/
def Json.render : Json → String
  | .str s => "\"" ++ s ++ "\""
  | .num n => toString n
  | .bool b => if b then "true" else "false"
  | .null => "null"
  | .arr es => "[" ++ Json.renderList es ++ "]"
  | .obj fs => "\x7b" ++ Json.renderFields fs ++ "\x7d"

/-- Render a list of JSON values, comma separated. -/
def Json.renderList : List Json → String
  | [] => ""
  | [v] => Json.render v
  | v :: rest => Json.render v ++ "," ++ Json.renderList rest

/-- Render the fields of a JSON object, comma separated. -/
def Json.renderFields : List (String × Json) → String
  | [] => ""
  | [(k, v)] => "\"" ++ k ++ "\":" ++ Json.render v
  | (k, v) :: rest => "\"" ++ k ++ "\":" ++ Json.render v ++ "," ++ Json.renderFields rest

end

/-- The content of an LM message.  In Go this is one `string` field; the
model distinguishes engine-authored plain text from content that carries a
JSON value, so that `json.Unmarshal` in `validateResponse` can be modelled
without a string-level JSON parser: `text` is content that does not parse as
a JSON object, `json v` is content whose parse is `v`. -/
inductive Content where
  | text (s : String)
  | json (v : Json)

/-- The string a `Content` stands for (used where Go treats the content as a
plain string, e.g. when persisting the assistant message). -/
def Content.asString : Content → String
  | .text s => s
  | .json v => v.render

/-- Model of `json.Unmarshal(content, &map[string]any)`: succeeds exactly on
content carrying a top-level JSON object. -/
def parseObj : Content → Option (List (String × Json))
  | .text _ => none
  | .json (.obj fields) => some fields
  | .json _ => none

/-! ## LM wire types (`config.go`) -/

/-- `LLMFunctionCall` from `config.go`.  Go keeps `Arguments` as a raw JSON
string; the model keeps it as `Content` so that the `json.Unmarshal` in
`executeToolCall` is `parseObj`. -/
structure LLMFunctionCall where
  name : String
  arguments : Content

/-- `LLMToolCall` from `config.go`. -/
structure LLMToolCall where
  id : String
  type : String
  function : LLMFunctionCall

/-- `LLMMessage` from `config.go`. -/
structure LLMMessage where
  role : String
  content : Content := .text ""
  name : String := ""
  toolCalls : List LLMToolCall := []
  toolCallID : String := ""

/-- `LLMFunction` from `config.go` (tool definition exposed to the LM). -/
structure LLMFunction where
  name : String
  description : String
  parameters : Json

/-- `LLMTool` from `config.go`. -/
structure LLMTool where
  type : String
  function : LLMFunction

/-- `LLMResponseFormat` from `config.go`.  The engine only ever builds the
`json_object` variant (`buildResponseFormat`), so the `json_schema` payload is
not modelled. -/
structure LLMResponseFormat where
  type : String

/-- `TokenUsage` from `types.go`. -/
structure TokenUsage where
  promptTokens : Int := 0
  completionTokens : Int := 0
  totalTokens : Int := 0

/-- `ChatCompletionResult` from `config.go`. -/
structure ChatCompletionResult where
  message : LLMMessage
  finishReason : String := ""
  usage : TokenUsage := {}

/-- `ChatCompletionContext` from `config.go`.  `Temperature` and `MaxTokens`
are plain pass-through knobs with no control-flow role in any claim below and
are omitted from the model. -/
structure ChatCompletionContext where
  model : String
  messages : List LLMMessage
  tools : List LLMTool := []
  responseFormat : Option LLMResponseFormat := none

/-! ## The data model (`config.go`, `types.go`) -/

/-- `ExecutionMode` is a Go string type. -/
abbrev ExecutionMode := String

/-- `ModeExpert` constant. -/
def ModeExpert : ExecutionMode := "expert"

/-- `ModeAgentic` constant. -/
def ModeAgentic : ExecutionMode := "agentic"

/-- `RequestContext` from `types.go` is `map[string]any`; `none` models the
nil map (Go distinguishes nil from empty in `buildPrompt`). -/
abbrev RequestContext := Option (List (String × Json))

/-- `RequestContext.String(key, default)` from `types.go`. -/
def ctxString (c : RequestContext) (key defaultValue : String) : String :=
  match c with
  | none => defaultValue
  | some fields =>
    match lookupField fields key with
    | some (.str s) => s
    | _ => defaultValue

/-- `SkillExample` from `config.go`. -/
structure SkillExample where
  user : String
  assistant : String

/-- `SkillVariant` from `config.go`. -/
structure SkillVariant where
  variant : String := ""
  weight : Int := 0
  instructions : String := ""
deriving DecidableEq

/-- `PropertySchema` from `config.go` (recursive through `items` and nested
`properties`, hence an inductive rather than a structure). -/
inductive PropertySchema where
  | node (type : String) (description : String) (items : Option PropertySchema)
      (properties : List (String × PropertySchema)) (enum : List String)

/-- The declared `type` of a property schema. -/
def PropertySchema.type : PropertySchema → String
  | .node t _ _ _ _ => t

/-- The declared `items` schema of a property schema. -/
def PropertySchema.items : PropertySchema → Option PropertySchema
  | .node _ _ i _ _ => i

/-- The declared nested `properties` of a property schema. -/
def PropertySchema.properties : PropertySchema → List (String × PropertySchema)
  | .node _ _ _ p _ => p

/-- The declared `enum` values of a property schema. -/
def PropertySchema.enum : PropertySchema → List String
  | .node _ _ _ _ e => e

/-- `OutputSchema` from `config.go`.  `Properties` is a Go map; the model
keeps the fields as an association list. -/
structure OutputSchema where
  type : String
  properties : List (String × PropertySchema)
  required : List String

/-- `Skill` from `config.go`. -/
structure Skill where
  id : String
  name : String := ""
  triggers : List String := []
  intents : List String := []
  tools : List String := []
  instructions : String := ""
  examples : List SkillExample := []
  guardrails : List String := []
  output : Option OutputSchema := none
  variants : List SkillVariant := []
  mode : ExecutionMode := ""
  contextInPrompt : List String := []

/-- `ToolCall` from `types.go` (the recorded tool invocation). -/
structure ToolCall where
  name : String
  params : List (String × Json) := []
  duration : Nat := 0

/-- `SuggestedAction` from `types.go`. -/
structure SuggestedAction where
  tool : String
  params : List (String × Json)
  reason : String := ""

/-- `ChatResult` from `types.go`.  A nil `Response` (`json.RawMessage` zero
value) is `none`. -/
structure ChatResult where
  conversationID : String := ""
  messageID : String := ""
  skillID : String := ""
  variant : String := ""
  mode : ExecutionMode := ""
  toolCalls : List ToolCall := []
  response : Option Content := none
  suggestedAction : Option SuggestedAction := none
  tokensUsed : TokenUsage := {}
  duration : Nat := 0

/-- `SkillRequest` from `types.go`. -/
structure SkillRequest where
  message : String
  data : Option Json := none
  context : RequestContext := none
  variant : String := ""
  conversationID : String := ""

/-- `SkillResult` from `types.go`. -/
structure SkillResult where
  response : Content
  variant : String
  tokensUsed : TokenUsage

/-- `Message` from `types.go` (the persisted conversation message). -/
structure Message where
  id : String
  conversationID : String
  role : String
  content : String
  skillID : String := ""
  variant : String := ""
  createdAt : Nat := 0

/-- `ParamDef` from `config.go`. -/
structure ParamDef where
  type : String
  description : String := ""
  required : Bool := false
  enumValues : List String := []
  default : Option Json := none

/-- `ParamDefinitions` from `config.go` is `map[string]ParamDef`. -/
abbrev ParamDefinitions := List (String × ParamDef)

/-- The `toolInput` view from `sdk.go` (`newToolInput`): raw params plus the
parameter definitions whose defaults back the typed accessors. -/
structure ToolInput where
  params : List (String × Json)
  paramDefs : ParamDefinitions

/-- `Source` from `config.go`.  `Fetch` is the host-supplied executor,
modelled as a pure fallible function. -/
structure Source where
  name : String
  description : String := ""
  params : ParamDefinitions := []
  fetch : ToolInput → Except String Json

/-- `Action` from `config.go`. -/
structure Action where
  name : String
  description : String := ""
  params : ParamDefinitions := []
  execute : ToolInput → Except String Json
  requiresConfirmation : Bool := false

/-! ## Errors (`errors.go`) -/

/-- `SDKError` from `errors.go`.  The `Cause` chain is modelled by the
underlying error's text; `Details` is the `map[string]any` payload. -/
structure SDKError where
  code : String
  message : String
  cause : Option String := none
  details : List (String × Json) := []

/-- `NewSDKError` from `errors.go`. -/
def NewSDKError (code message : String) (cause : Option String) : SDKError :=
  { code := code, message := message, cause := cause }

/-- `NewNotFoundError` from `errors.go`. -/
def NewNotFoundError (resource identifier : String) : SDKError :=
  { code := "NOT_FOUND"
    message := resource ++ " not found: " ++ identifier
    details := [("resource", .str resource), ("identifier", .str identifier)] }

/-- `NewToolError` from `errors.go`. -/
def NewToolError (toolName : String) (cause : String) : SDKError :=
  { code := "TOOL_EXECUTION_ERROR"
    message := "tool execution failed: " ++ toolName
    cause := some cause
    details := [("tool", .str toolName)] }

/-- `NewLLMError` from `errors.go`. -/
def NewLLMError (message : String) (cause : String) : SDKError :=
  NewSDKError "LLM_ERROR" message (some cause)

/-- `NewSchemaError` from `errors.go`. -/
def NewSchemaError (message : String) (cause : String) : SDKError :=
  NewSDKError "SCHEMA_ERROR" message (some cause)

/-- `NewRoutingError` from `errors.go`. -/
def NewRoutingError (message : String) (cause : String) : SDKError :=
  NewSDKError "ROUTING_ERROR" message (some cause)

/-- `NewConfigurationError` from `errors.go`. -/
def NewConfigurationError (message : String) : SDKError :=
  NewSDKError "CONFIGURATION_ERROR" message none

/-- How a run can fail: an `error` return value (an `SDKError` or a plain
wrapped Go error, kept as its text) or a Go runtime panic.  Panics propagate
exactly like errors here because no engine code recovers them. -/
inductive RunFailure where
  | sdkError (e : SDKError)
  | goError (msg : String)
  | goPanic (msg : String)

/-! ## Experts and hooks (`config.go`, `hooks.go`) -/

/-- `Request` from `config.go` (the processed chat request passed to
experts). -/
structure Request where
  message : String
  entityID : String := ""
  context : RequestContext := none
  conversationID : String := ""
  conversationHistory : List Message := []

/-- `ExpertResult` from `config.go`. -/
structure ExpertResult where
  answer : String := ""
  details : Option Json := none
  suggestedAction : Option SuggestedAction := none

/-- `json.Marshal` of an `ExpertResult` (struct fields in declaration order;
the `reason` omitempty detail of the nested struct is immaterial to the
claims and not modelled). -/
def marshalExpertResult (er : ExpertResult) : Json :=
  .obj [("Answer", .str er.answer),
        ("Details", er.details.getD .null),
        ("SuggestedAction",
          match er.suggestedAction with
          | none => .null
          | some sa => .obj [("tool", .str sa.tool), ("params", .obj sa.params),
                             ("reason", .str sa.reason)])]

/-- `Expert` from `config.go`.  The fetcher is host code that may call back
into the tool registry; it is modelled as a pure fallible function returning
the fetched data together with the `ToolCall` records that
`toolExecutorImpl.Execute` accumulated on its behalf. -/
structure Expert where
  skillID : String
  fetcher : Option (Request → Except String (Option Json × List ToolCall)) := none
  postProcess : Option (Request → SkillResult → Option Json → Except String ExpertResult) := none

/-- `PreprocessRequest` from `hooks.go`. -/
structure PreprocessRequest where
  skillID : String
  message : String
  data : Option Json
  context : RequestContext
  metadata : List (String × Json)

/-- `PreprocessHook` from `hooks.go`: the hook mutates the request in place;
the model returns the mutated value. -/
abbrev PreprocessHook := PreprocessRequest → Except String PreprocessRequest

/-- `PostprocessRequest` from `hooks.go`. -/
structure PostprocessRequest where
  skillID : String
  message : String
  response : List (String × Json)
  data : Option Json
  context : RequestContext
  metadata : List (String × Json)
  variant : String
  tokensUsed : TokenUsage

/-- `PostprocessHook` from `hooks.go`. -/
abbrev PostprocessHook := PostprocessRequest → Except String PostprocessRequest

/-! ## Requests and configuration (`types.go`, `config.go`) -/

/-- `ChatRequest` from `types.go` (the engine stack). -/
structure ChatRequest where
  message : String
  conversationID : String := ""
  entityID : String := ""
  context : RequestContext := none
  mode : ExecutionMode := ""
  skillID : String := ""
  variant : String := ""

/-- `Config` from `config.go` plus the registry contents behind the
`SkillRegistry`/`ToolRegistry`/`HookRegistry` interfaces.  The registries are
startup-time immutable maps keyed by the entity's own id/name
(`skills/registry.go` stores `r.skills[skill.ID] = skill`,
`tools/registry.go` stores under the registered name which it also writes
into the `Name` field), so association lists with `find?` lookups model
them.  The LM client is a stub indexed by the number of completed LM calls.
`Logger`, `Storage`, `RequestTimeout`, `AllowedOrigins` and `Temperature`
play no role in any claim and are not modelled. -/
structure Config where
  llm : Nat → ChatCompletionContext → Except String ChatCompletionResult
  skills : List Skill := []
  sources : List Source := []
  actions : List Action := []
  experts : List Expert := []
  executionMode : ExecutionMode := ""
  defaultSkillID : String := ""
  maxAgentTurns : Int := 0
  preHooks : List (String × PreprocessHook) := []
  postHooks : List (String × PostprocessHook) := []
  model : String := ""

/-- `Config.withDefaults` from `config.go` (the modelled fields). -/
def Config.withDefaults (c : Config) : Config :=
  let c := if c.executionMode = "" then { c with executionMode := ModeExpert } else c
  let c := if c.maxAgentTurns ≤ 0 then { c with maxAgentTurns := 10 } else c
  if c.model = "" then { c with model := "gpt-4o" } else c

/-! ## Skill registry and router (`skills/registry.go`, `router.go`) -/

/-- Whether `sub` is a prefix of `s` (on character lists). -/
def charsPrefixOf : List Char → List Char → Bool
  | [], _ => true
  | _ :: _, [] => false
  | a :: as, b :: bs => a = b && charsPrefixOf as bs

/-- Whether `sub` occurs contiguously in `s` (on character lists). -/
def charsInfixOf (sub : List Char) : List Char → Bool
  | [] => sub.isEmpty
  | l@(_ :: rest) => charsPrefixOf sub l || charsInfixOf sub rest

/-- Substring test, the model of `strings.Contains`; `strings.ToLower` is
applied by the callers. -/
def strContains (s sub : String) : Bool :=
  charsInfixOf sub.toList s.toList

/-- `strings.ToLower` (over the character list, so that the kernel can
evaluate it on concrete inputs). -/
def strToLower (s : String) : String :=
  ⟨s.toList.map Char.toLower⟩

/-- `Registry.Get` from `skills/registry.go`: map lookup keyed by `skill.ID`. -/
def skillsGet (skills : List Skill) (id : String) : Option Skill :=
  skills.find? (fun s => s.id = id)

/-- `matchesSkill` from `skills/registry.go`. -/
def matchesSkill (skill : Skill) (messageLower : String) : Bool :=
  skill.triggers.any (fun t => strContains messageLower (strToLower t)) ||
  skill.intents.any (fun i => strContains messageLower (strToLower i))

/-- `Registry.Match` from `skills/registry.go`.  Go iterates the skill map in
unspecified order; the model fixes registration order, on which no claim
below depends. -/
def skillsMatch (skills : List Skill) (message : String) : List Skill :=
  skills.filter (fun s => matchesSkill s (strToLower message))

/-- `Router.Route` from `router.go`. -/
def routerRoute (skills : List Skill) (defaultSkillID : String) (message : String) :
    Option Skill :=
  match skillsMatch skills message with
  | m :: _ => some m
  | [] => if defaultSkillID = "" then none else skillsGet skills defaultSkillID

/-! ## Tool registry (`tools/registry.go`) -/

/-- `Registry.GetForSkill` from `tools/registry.go`: partition the skill's
tool names into sources and actions, failing on the first unresolvable name
(`fmt.Errorf("%w: %s", ErrToolNotFound, name)`). -/
def toolsGetForSkill (sources : List Source) (actions : List Action) :
    List String → Except String (List Source × List Action)
  | [] => .ok ([], [])
  | n :: rest =>
    match sources.find? (fun s => s.name = n) with
    | some s =>
      match toolsGetForSkill sources actions rest with
      | .ok (ss, acts) => .ok (s :: ss, acts)
      | .error e => .error e
    | none =>
      match actions.find? (fun a => a.name = n) with
      | some a =>
        match toolsGetForSkill sources actions rest with
        | .ok (ss, acts) => .ok (ss, a :: acts)
        | .error e => .error e
      | none => .error ("tool not found: " ++ n)

/-! ## Mode resolution and variant selection (`sdk.go`) -/

/-- `SDK.determineMode` from `sdk.go`: request override, else skill override,
else config default. -/
def determineMode (cfg : Config) (req : ChatRequest) (skill : Skill) : ExecutionMode :=
  if req.mode ≠ "" then req.mode
  else if skill.mode ≠ "" then skill.mode
  else cfg.executionMode

/-- The cumulative-weight walk at the end of `SDK.selectVariant`: Go returns
the first variant whose cumulative weight exceeds the target and falls back
to `skill.Variants[0]`. -/
def walkCumulative (target : Int) (fallback : SkillVariant) :
    Int → List SkillVariant → SkillVariant
  | _, [] => fallback
  | cumulative, v :: rest =>
    if target < cumulative + v.weight then v
    else walkCumulative target fallback (cumulative + v.weight) rest

/-- `SDK.selectVariant` from `sdk.go`.  `now` is the value of
`time.Now().UnixNano()`, threaded explicitly; the run state supplies it.  A
skill whose declared weights sum to zero reaches `seed % int64(totalWeight)`
with a zero divisor, which panics in Go; the model returns that panic as an
`error`. -/
def selectVariant (skill : Skill) (requestedVariant userID : String) (now : Nat) :
    Except String SkillVariant :=
  match if requestedVariant = "" then none
        else skill.variants.find? (fun v => v.variant = requestedVariant) with
  | some v => .ok v
  | none =>
    match skill.variants with
    | [] => .ok { variant := "", weight := 0, instructions := skill.instructions }
    | v0 :: _ =>
      let totalWeight : Int := (skill.variants.map (·.weight)).sum
      let seed : Int := (now : Int) + ((userID.toList.map (fun c => (c.toNat : Int))).sum)
      if totalWeight = 0 then .error "integer divide by zero"
      else .ok (walkCumulative (seed.tmod totalWeight) v0 0 skill.variants)

/-! ## JSON-schema rendering helpers (`sdk.go`) -/

mutual

/-- `propertySchemaToJSONSchema` from `sdk.go`.  Fields are listed in the
order Go's map marshalling would emit them (sorted keys). -/
def propertySchemaToJSONSchema : PropertySchema → Json
  | .node type description items properties enum =>
    .obj ((if description = "" then [] else [("description", Json.str description)]) ++
      (if enum.isEmpty then [] else [("enum", Json.arr (enum.map Json.str))]) ++
      (match items with
       | none => []
       | some i => [("items", propertySchemaToJSONSchema i)]) ++
      (if properties.isEmpty then []
       else [("additionalProperties", Json.bool false),
             ("properties", Json.obj (propertySchemaListToJSONSchema properties))]) ++
      [("type", Json.str type)])

/-- The nested-properties map of `propertySchemaToJSONSchema`. -/
def propertySchemaListToJSONSchema : List (String × PropertySchema) → List (String × Json)
  | [] => []
  | (k, p) :: rest => (k, propertySchemaToJSONSchema p) :: propertySchemaListToJSONSchema rest

end

/-- `outputSchemaToJSONSchema` from `sdk.go`. -/
def outputSchemaToJSONSchema (schema : OutputSchema) : Json :=
  .obj ([("additionalProperties", Json.bool false),
         ("properties", Json.obj (propertySchemaListToJSONSchema schema.properties))] ++
    (if schema.required.isEmpty then []
     else [("required", Json.arr (schema.required.map Json.str))]) ++
    [("type", Json.str schema.type)])

/-- `paramDefsToJSONSchema` from `sdk.go`. -/
def paramDefsToJSONSchema (params : ParamDefinitions) : Json :=
  let properties := params.map (fun (name, p) =>
    (name, Json.obj ((if p.enumValues.isEmpty then []
                      else [("enum", Json.arr (p.enumValues.map Json.str))]) ++
      [("description", Json.str p.description), ("type", Json.str p.type)])))
  let required := (params.filter (fun p => p.2.required)).map (·.1)
  .obj ([("properties", Json.obj properties)] ++
    (if required.isEmpty then [] else [("required", Json.arr (required.map Json.str))]) ++
    [("type", Json.str "object")])

/-! ## Prompt assembly (`sdk.go`) -/

/-- The system-message text assembled by `buildPrompt`: instructions, then
the `Rules:` block, the `Context:` block and the output-schema block, each
when present. -/
def promptSystemText (skill : Skill) (variant : SkillVariant) (reqCtx : RequestContext) :
    String :=
  let instructions := if variant.instructions = "" then skill.instructions
                      else variant.instructions
  let instructions := if skill.guardrails.isEmpty then instructions
    else instructions ++ "\n\nRules:\n" ++
      String.join (skill.guardrails.map (fun g => "- " ++ g ++ "\n"))
  let instructions :=
    match reqCtx with
    | none => instructions
    | some _ =>
      if skill.contextInPrompt.isEmpty then instructions
      else instructions ++ "\n\nContext:\n" ++
        String.join (skill.contextInPrompt.map (fun key =>
          let val := ctxString reqCtx key ""
          if val = "" then "" else "- " ++ key ++ ": " ++ val ++ "\n"))
  match skill.output with
  | none => instructions
  | some schema =>
    instructions ++ "\n\nYou MUST respond with valid JSON matching this schema:\n" ++
      (outputSchemaToJSONSchema schema).render

/-- The few-shot example pairs shared by `buildPrompt` and
`buildAgentMessages`. -/
def exampleMessages (skill : Skill) : List LLMMessage :=
  skill.examples.flatMap (fun ex =>
    [{ role := "user", content := .text ex.user },
     { role := "assistant", content := .text ex.assistant }])

/-- `SDK.buildPrompt` from `sdk.go` (expert mode). -/
def buildPrompt (skill : Skill) (variant : SkillVariant) (message : String)
    (data : Option Json) (reqCtx : RequestContext) : List LLMMessage :=
  [{ role := "system", content := .text (promptSystemText skill variant reqCtx) }] ++
  exampleMessages skill ++
  (match data with
   | none => []
   | some d => [{ role := "system", content := .text ("Available data:\n" ++ d.render) }]) ++
  [{ role := "user", content := .text message }]

/-- The system-message text assembled by `buildAgentMessages`: instructions
and the `Rules:` block only. -/
def agentSystemText (skill : Skill) (variant : SkillVariant) : String :=
  let instructions := if variant.instructions = "" then skill.instructions
                      else variant.instructions
  if skill.guardrails.isEmpty then instructions
  else instructions ++ "\n\nRules:\n" ++
    String.join (skill.guardrails.map (fun g => "- " ++ g ++ "\n"))

/-- `SDK.buildAgentMessages` from `sdk.go` (agentic mode). -/
def buildAgentMessages (skill : Skill) (variant : SkillVariant) (req : ChatRequest) :
    List LLMMessage :=
  [{ role := "system", content := .text (agentSystemText skill variant) }] ++
  exampleMessages skill ++
  [{ role := "user", content := .text req.message }]

/-- The seed-data insertion in `executeAgenticMode`: when the pre-hook
injected data, a system `Initial data:` message is spliced in immediately
before the final (user) message —
`append(messages[:len(messages)-1], dataMsg, messages[len(messages)-1])`. -/
def addInitialData (messages : List LLMMessage) (d : Json) : List LLMMessage :=
  messages.dropLast ++
    [{ role := "system", content := .text ("Initial data:\n" ++ d.render) }] ++
    (messages.getLast?.map (fun m => [m])).getD []

/-- `SDK.buildResponseFormat` from `sdk.go`. -/
def buildResponseFormat (skill : Skill) : Option LLMResponseFormat :=
  match skill.output with
  | none => none
  | some _ => some { type := "json_object" }

/-- `SDK.buildLLMTools` from `sdk.go`. -/
def buildLLMTools (sources : List Source) (actions : List Action) : List LLMTool :=
  sources.map (fun src =>
    { type := "function"
      function := { name := src.name, description := src.description
                    parameters := paramDefsToJSONSchema src.params } }) ++
  actions.map (fun act =>
    { type := "function"
      function := { name := act.name, description := act.description
                    parameters := paramDefsToJSONSchema act.params } })

/-! ## Schema validation (`sdk.go`) -/

/-- The required-fields loop of `validateResponse`: report the first name of
`required` missing from the parsed object. -/
def checkRequired (fields : List (String × Json)) : List String → Except String Unit
  | [] => .ok ()
  | r :: rest =>
    if (lookupField fields r).isSome then checkRequired fields rest
    else .error ("missing required field: " ++ r)

/-- `SDK.validateResponse` from `sdk.go`: no schema accepts anything; with a
schema, the content must parse as a JSON object and contain every `required`
name.  Nothing else is checked. -/
def validateResponse (skill : Skill) (response : Content) : Except String Unit :=
  match skill.output with
  | none => .ok ()
  | some schema =>
    match parseObj response with
    | none => .error "response is not valid JSON"
    | some fields => checkRequired fields schema.required

/-! ## Run state, events and the conversation store
(`agentic/pkg/agent/conversation/memory.go` gives the reference in-memory
store semantics behind the `ConversationStore` interface). -/

/-- Observable events of one request, recorded for the temporal claims:
LM round-trips, tool executions, and message persistence. -/
inductive Event where
  | lmCall
  | toolRun (name : String)
  | persistUser
  | persistAssistant
deriving DecidableEq

/-- The in-memory conversation store: conversation id to its ordered
messages. -/
structure Store where
  conversations : List (String × List Message) := []

/-- `MemoryStore.GetMessages`: the last `limit` messages when `limit > 0`
and the conversation has more; a missing conversation yields nil. -/
def storeGetMessages (s : Store) (conversationID : String) (limit : Nat) : List Message :=
  match (s.conversations.find? (fun p => p.1 = conversationID)).map (·.2) with
  | none => []
  | some msgs =>
    if 0 < limit ∧ limit < msgs.length then msgs.drop (msgs.length - limit) else msgs

/-- `MemoryStore.AddMessage`: append, creating the conversation if absent;
never fails. -/
def storeAddMessage (s : Store) (conversationID : String) (msg : Message) : Store :=
  match s.conversations.find? (fun p => p.1 = conversationID) with
  | some _ =>
    { conversations := s.conversations.map (fun p =>
        if p.1 = conversationID then (p.1, p.2 ++ [msg]) else p) }
  | none => { conversations := s.conversations ++ [(conversationID, [msg])] }

/-- The per-request run state: the store, the `uuid.New` supply, the
wall-clock tick counter, the number of completed LM calls, and the event
trace. -/
structure RunState where
  store : Store
  nextId : Nat := 0
  clock : Nat := 0
  llmCalls : Nat := 0
  trace : List Event := []

/-- The id the supply hands out for counter value `n` (model of
`uuid.New().String()`, which is always a non-empty 36-character string). -/
def mkId (n : Nat) : String := "uuid-" ++ toString n

/-- Draw a fresh id (`NewConversationID`/`NewMessageID`). -/
def newId (st : RunState) : String × RunState :=
  (mkId st.nextId, { st with nextId := st.nextId + 1 })

/-- Record an event. -/
def pushEvent (st : RunState) (e : Event) : RunState :=
  { st with trace := st.trace ++ [e] }

/-- Advance the wall clock by one tick. -/
def tick (st : RunState) : RunState := { st with clock := st.clock + 1 }

/-- One `s.llm.ChatCompletion(...)` round-trip: records the event, consumes
one index of the stub, advances the clock. -/
def callLLM (cfg : Config) (ctx : ChatCompletionContext) (st : RunState) :
    Except String ChatCompletionResult × RunState :=
  let st := pushEvent st .lmCall
  (cfg.llm st.llmCalls ctx, tick { st with llmCalls := st.llmCalls + 1 })

/-! ## Tool execution and the agent loop (`sdk.go`) -/

/-- The three ways `SDK.executeToolCall` returns: a result string with the
recorded call, the `ErrActionRequiresConfirmation` sentinel (Go also returns
the recorded call, whose params the caller reads), or an error. -/
inductive ToolCallOutcome where
  | ok (result : String) (tc : ToolCall)
  | confirmation (tc : ToolCall)
  | failed (tc : ToolCall) (e : SDKError)

/-- `SDK.executeToolCall` from `sdk.go`: parse the arguments, try sources
first, then actions; a confirmation-requiring action short-circuits before
executing; an unknown name is `NotFound`. -/
def executeToolCall (call : LLMToolCall) (sources : List Source) (actions : List Action)
    (st : RunState) : ToolCallOutcome × RunState :=
  let start := st.clock
  let toolName := call.function.name
  match parseObj call.function.arguments with
  | none => (.failed { name := "", params := [], duration := 0 }
      (NewToolError toolName "invalid arguments"), st)
  | some params =>
    let tc : ToolCall := { name := toolName, params := params }
    match sources.find? (fun s => s.name = toolName) with
    | some src =>
      let st := pushEvent (tick st) (.toolRun toolName)
      let tc := { tc with duration := st.clock - start }
      match src.fetch { params := params, paramDefs := src.params } with
      | .error e => (.failed tc (NewToolError toolName e), st)
      | .ok result => (.ok result.render tc, st)
    | none =>
      match actions.find? (fun a => a.name = toolName) with
      | some act =>
        if act.requiresConfirmation then
          let st := tick st
          (.confirmation { tc with duration := st.clock - start }, st)
        else
          let st := pushEvent (tick st) (.toolRun toolName)
          let tc := { tc with duration := st.clock - start }
          match act.execute { params := params, paramDefs := act.params } with
          | .error e => (.failed tc (NewToolError toolName e), st)
          | .ok result => (.ok result.render tc, st)
      | none => (.failed tc (NewNotFoundError "tool" toolName), st)

/-- Outcome of executing the tool calls of one LM turn. -/
inductive CallsOutcome where
  | done (msgs : List LLMMessage) (toolCalls : List ToolCall)
  | shortCircuit (r : ChatResult)
  | failed (f : RunFailure)

/-- The per-turn tool-call loop inside `executeAgenticMode`: execute the
calls in LM emission order, appending each result as a `role:"tool"` message
and recording each completed call; a confirmation-requiring action returns a
successful result carrying a `SuggestedAction` built from the call name and
its parsed params, with only the previously completed calls recorded. -/
def execCalls (variantName : String) (usage : TokenUsage)
    (sources : List Source) (actions : List Action) :
    List LLMToolCall → List LLMMessage → List ToolCall → RunState →
    CallsOutcome × RunState
  | [], msgs, toolCalls, st => (.done msgs toolCalls, st)
  | call :: rest, msgs, toolCalls, st =>
    match executeToolCall call sources actions st with
    | (.confirmation tc, st) =>
      let (mid, st) := newId st
      (.shortCircuit
        { messageID := mid, variant := variantName, toolCalls := toolCalls
          tokensUsed := usage
          suggestedAction := some { tool := call.function.name, params := tc.params
                                    reason := "Action requires user confirmation" } }, st)
    | (.failed _ e, st) => (.failed (.sdkError e), st)
    | (.ok result tc, st) =>
      execCalls variantName usage sources actions rest
        (msgs ++ [{ role := "tool", content := .text result, toolCallID := call.id }])
        (toolCalls ++ [tc]) st

/-- Accumulate token usage, as the agent loop does after every LM call. -/
def addUsage (u v : TokenUsage) : TokenUsage :=
  { promptTokens := u.promptTokens + v.promptTokens
    completionTokens := u.completionTokens + v.completionTokens
    totalTokens := u.totalTokens + v.totalTokens }

/-- The pre-hook invocation shared by `executeExpertMode` and
`executeAgenticMode` (`sdk.go`): look up the skill's preprocess hook, run it
over the current data, and return the possibly rewritten data together with
the metadata bag; hook errors abort the turn with `preprocess hook failed`. -/
def preHookStep (cfg : Config) (skill : Skill) (message : String) (ctx : RequestContext)
    (data : Option Json) : Except RunFailure (Option Json × List (String × Json)) :=
  match cfg.preHooks.find? (fun p => p.1 = skill.id) with
  | none => .ok (data, [])
  | some (_, hook) =>
    match hook { skillID := skill.id, message := message, data := data,
                 context := ctx, metadata := [] } with
    | .error e => .error (.goError ("preprocess hook failed: " ++ e))
    | .ok preq => .ok (preq.data, preq.metadata)

/-- The post-hook invocation shared by both modes (`sdk.go`): parse the
response into a map (an unparseable response becomes an empty map), run the
hook, and re-serialise the possibly mutated map as the new response; without
a hook the response passes through unchanged. -/
def postHookStep (cfg : Config) (skill : Skill) (message : String) (ctx : RequestContext)
    (data : Option Json) (metadata : List (String × Json)) (variantName : String)
    (usage : TokenUsage) (response : Content) : Except RunFailure Content :=
  match cfg.postHooks.find? (fun p => p.1 = skill.id) with
  | none => .ok response
  | some (_, hook) =>
    match hook { skillID := skill.id, message := message,
                 response := (parseObj response).getD [], data := data, context := ctx,
                 metadata := metadata, variant := variantName, tokensUsed := usage } with
    | .error e => .error (.goError ("postprocess hook failed: " ++ e))
    | .ok presp => .ok (.json (.obj presp.response))

/-- The `for turn := 0; turn < s.config.MaxAgentTurns; turn++` loop of
`executeAgenticMode`, with the remaining turns as fuel.  Each iteration makes
exactly one LM call; a response with tool calls executes them and loops; a
response without tool calls is validated, run through the post-hook and
returned; running out of fuel is the
`NewSDKError(ErrCodeInternal, "max agent turns exceeded", ErrMaxTurnsExceeded)`
return, which carries no tool-call record and an empty `ChatResult`. -/
def runAgentLoop (cfg : Config) (skill : Skill) (variantName : String)
    (llmTools : List LLMTool) (sources : List Source) (actions : List Action)
    (fetchedData : Option Json) (req : ChatRequest) (metadata : List (String × Json)) :
    Nat → List LLMMessage → List ToolCall → TokenUsage → RunState →
    Except RunFailure ChatResult × RunState
  | 0, _, _, _, st =>
    (.error (.sdkError (NewSDKError "INTERNAL_ERROR" "max agent turns exceeded"
      (some "maximum agent turns exceeded"))), st)
  | fuel + 1, messages, toolCalls, usage, st =>
    match callLLM cfg { model := cfg.model, messages := messages, tools := llmTools
                        responseFormat := buildResponseFormat skill } st with
    | (.error e, st) => (.error (.sdkError (NewLLMError "chat completion failed" e)), st)
    | (.ok llmResult, st) =>
      let usage := addUsage usage llmResult.usage
      if llmResult.message.toolCalls.isEmpty then
        match validateResponse skill llmResult.message.content with
        | .error e =>
          (.error (.sdkError (NewSchemaError "response validation failed" e)), st)
        | .ok () =>
          match postHookStep cfg skill req.message req.context fetchedData metadata
              variantName usage llmResult.message.content with
          | .error f => (.error f, st)
          | .ok resp =>
            let (mid, st) := newId st
            (.ok { messageID := mid, variant := variantName, toolCalls := toolCalls
                   response := some resp, tokensUsed := usage }, st)
      else
        match execCalls variantName usage sources actions llmResult.message.toolCalls
            (messages ++ [llmResult.message]) toolCalls st with
        | (.done messages toolCalls, st) =>
          runAgentLoop cfg skill variantName llmTools sources actions fetchedData req
            metadata fuel messages toolCalls usage st
        | (.shortCircuit r, st) => (.ok r, st)
        | (.failed f, st) => (.error f, st)

/-- `SDK.executeAgenticMode` from `sdk.go`: select the variant, resolve the
skill's tools, run the pre-hook (which may seed data), assemble the agent
messages (inserting the `Initial data:` message when seeded), then run the
bounded agent loop.  The `conversationID` parameter is unused by the Go
function (agentic mode loads no history). -/
def executeAgenticMode (cfg : Config) (req : ChatRequest) (skill : Skill)
    (_conversationID : String) (st : RunState) : Except RunFailure ChatResult × RunState :=
  match selectVariant skill req.variant (ctxString req.context "userId" "") st.clock with
  | .error msg => (.error (.goPanic msg), st)
  | .ok variant =>
    match toolsGetForSkill cfg.sources cfg.actions skill.tools with
    | .error e => (.error (.goError e), st)
    | .ok (sources, actions) =>
      match preHookStep cfg skill req.message req.context none with
      | .error f => (.error f, st)
      | .ok (fetchedData, metadata) =>
        let llmTools := buildLLMTools sources actions
        let messages := buildAgentMessages skill variant req
        let messages :=
          match fetchedData with
          | none => messages
          | some d => addInitialData messages d
        runAgentLoop cfg skill variant.variant llmTools sources actions fetchedData req
          metadata cfg.maxAgentTurns.toNat messages [] {} st

/-! ## Direct skill execution and the expert path (`sdk.go`) -/

/-- `SDK.ExecuteSkill` from `sdk.go`: look up the skill, select a variant,
build the prompt, make one LM call, validate the response against the output
schema. -/
def ExecuteSkill (cfg : Config) (skillID : String) (sreq : SkillRequest) (st : RunState) :
    Except RunFailure SkillResult × RunState :=
  match skillsGet cfg.skills skillID with
  | none => (.error (.sdkError (NewNotFoundError "skill" skillID)), st)
  | some skill =>
    match selectVariant skill sreq.variant (ctxString sreq.context "userId" "") st.clock with
    | .error msg => (.error (.goPanic msg), st)
    | .ok variant =>
      let prompt := buildPrompt skill variant sreq.message sreq.data sreq.context
      match callLLM cfg { model := cfg.model, messages := prompt
                          responseFormat := buildResponseFormat skill } st with
      | (.error e, st) => (.error (.sdkError (NewLLMError "chat completion failed" e)), st)
      | (.ok llmResult, st) =>
        match validateResponse skill llmResult.message.content with
        | .error e => (.error (.sdkError (NewSchemaError "response validation failed" e)), st)
        | .ok () =>
          (.ok { response := llmResult.message.content, variant := variant.variant
                 tokensUsed := llmResult.usage }, st)

/-- The expert fetcher invocation of `executeExpertMode` (`sdk.go`): when
the skill's expert declares a fetcher, run it; the fetched data and the tool
calls recorded through `toolExecutorImpl` come back, and fetcher errors
surface as `ToolExecution/expert fetcher`. -/
def expertFetchStep (expert : Option Expert) (expertReq : Request) :
    Except RunFailure (Option Json × List ToolCall) :=
  match expert with
  | some e =>
    match e.fetcher with
    | some fetch =>
      match fetch expertReq with
      | .error msg => .error (.sdkError (NewToolError "expert fetcher" msg))
      | .ok (data, tcs) => .ok (data, tcs)
    | none => .ok (none, [])
  | none => .ok (none, [])

/-- The expert post-processor invocation of `executeExpertMode` (`sdk.go`):
when declared, its `ExpertResult` is marshalled as the final response and
its suggested action is surfaced; otherwise the skill result passes
through. -/
def expertPostProcessStep (expert : Option Expert) (expertReq : Request)
    (skillResult : SkillResult) (fetchedData : Option Json) :
    Except RunFailure (Content × Option SuggestedAction) :=
  match expert with
  | some e =>
    match e.postProcess with
    | some pp =>
      match pp expertReq skillResult fetchedData with
      | .error msg => .error (.goError ("expert post-processing failed: " ++ msg))
      | .ok er => .ok (.json (marshalExpertResult er), er.suggestedAction)
    | none => .ok (skillResult.response, none)
  | none => .ok (skillResult.response, none)

/-- `SDK.executeExpertMode` from `sdk.go`: load history (best effort), run
the expert's fetcher (recording its tool calls), the pre-hook, the single
LM call via `ExecuteSkill`, the post-hook and the expert's post-processor. -/
def executeExpertMode (cfg : Config) (req : ChatRequest) (skill : Skill)
    (conversationID : String) (st : RunState) : Except RunFailure ChatResult × RunState :=
  let expert := cfg.experts.find? (fun e => e.skillID = skill.id)
  let history := storeGetMessages st.store conversationID 20
  let expertReq : Request :=
    { message := req.message, entityID := req.entityID, context := req.context
      conversationID := conversationID, conversationHistory := history }
  match expertFetchStep expert expertReq with
  | .error f => (.error f, st)
  | .ok (fetched, fetchCalls) =>
    let st := fetchCalls.foldl (fun s tc => pushEvent s (.toolRun tc.name)) st
    match preHookStep cfg skill req.message req.context fetched with
    | .error f => (.error f, st)
    | .ok (fetchedData, metadata) =>
      match ExecuteSkill cfg skill.id
          { message := req.message, data := fetchedData, context := req.context
            variant := req.variant, conversationID := conversationID } st with
      | (.error f, st) => (.error f, st)
      | (.ok skillResult, st) =>
        match postHookStep cfg skill req.message req.context fetchedData metadata
            skillResult.variant skillResult.tokensUsed skillResult.response with
        | .error f => (.error f, st)
        | .ok resp =>
          let skillResult := { skillResult with response := resp }
          match expertPostProcessStep expert expertReq skillResult fetchedData with
          | .error f => (.error f, st)
          | .ok (response, suggestedAction) =>
            let (mid, st) := newId st
            (.ok { messageID := mid, variant := skillResult.variant
                   toolCalls := fetchCalls, response := some response
                   suggestedAction := suggestedAction
                   tokensUsed := skillResult.tokensUsed }, st)

/-! ## The orchestrator (`sdk.go`) -/

/-- `SDK.routeToSkill` from `sdk.go`: direct skill routing when the request
names a skill, otherwise the keyword router with default fallback. -/
def routeToSkill (cfg : Config) (req : ChatRequest) : Except RunFailure Skill :=
  if req.skillID ≠ "" then
    match skillsGet cfg.skills req.skillID with
    | none => .error (.sdkError (NewNotFoundError "skill" req.skillID))
    | some skill => .ok skill
  else
    match routerRoute cfg.skills cfg.defaultSkillID req.message with
    | none => .error (.sdkError (NewRoutingError "no skill matched" "no skill matched the message"))
    | some skill => .ok skill

/-- `SDK.storeMessages` from `sdk.go`: persist the user message, then the
assistant message.  The in-memory store never fails. -/
def storeMessages (conversationID : String) (req : ChatRequest) (result : ChatResult)
    (st : RunState) : RunState :=
  let (uid, st) := newId st
  let st := pushEvent st .persistUser
  let userMsg : Message :=
    { id := uid, conversationID := conversationID, role := "user",
      content := req.message, createdAt := st.clock }
  let st := { st with store := storeAddMessage st.store conversationID userMsg }
  let st := pushEvent st .persistAssistant
  let assistantMsg : Message :=
    { id := result.messageID, conversationID := conversationID, role := "assistant",
      content := (result.response.map Content.asString).getD "",
      skillID := result.skillID, variant := result.variant, createdAt := st.clock }
  { st with store := storeAddMessage st.store conversationID assistantMsg }

/-- The mode dispatch and result stamping of `SDK.Chat` (`sdk.go`): execute
the resolved mode, stamp duration, conversation id, skill id and mode onto
the successful result, then persist the user and assistant messages. -/
def chatDispatch (cfg : Config) (req : ChatRequest) (skill : Skill)
    (conversationID : String) (startClock : Nat) (st : RunState) :
    Except RunFailure ChatResult × RunState :=
  let mode := determineMode cfg req skill
  match
    if mode = ModeExpert then executeExpertMode cfg req skill conversationID st
    else if mode = ModeAgentic then executeAgenticMode cfg req skill conversationID st
    else (.error (.sdkError (NewConfigurationError ("unknown execution mode: " ++ mode))), st)
  with
  | (.error f, st) => (.error f, st)
  | (.ok result, st) =>
    let result :=
      { result with
        duration := st.clock - startClock,
        conversationID := conversationID,
        skillID := skill.id,
        mode := mode }
    (.ok result, storeMessages conversationID req result st)

/-- `SDK.Chat` from `sdk.go`: assign a conversation id (fresh when the
request carries none), route to a skill, then dispatch on the resolved
execution mode. -/
def chat (cfg : Config) (req : ChatRequest) (st : RunState) :
    Except RunFailure ChatResult × RunState :=
  let startClock := st.clock
  let (conversationID, st) :=
    if req.conversationID = "" then newId st else (req.conversationID, st)
  match routeToSkill cfg req with
  | .error f => (.error f, st)
  | .ok skill => chatDispatch cfg req skill conversationID startClock st

/-! ## SHA-256 (`crypto/sha256`), bit-precise over byte lists

`ABSelector.Sticky` in `agentic/pkg/agent/skills/ab.go` hashes
`identifier ++ skill id` with SHA-256 and indexes the variant list with the
big-endian first eight digest bytes.  The hash is implemented here exactly
(FIPS 180-4) so that sticky selection evaluates on concrete inputs; 32-bit
words are `Nat` reduced mod `2^32` at every arithmetic step. -/

/-- Right rotation of a 32-bit word. -/
def rotr32 (n x : Nat) : Nat := ((x >>> n) ||| (x <<< (32 - n))) &&& 0xffffffff

/-- SHA-256 `Ch`. -/
def shaCh (x y z : Nat) : Nat := (x &&& y) ^^^ ((x ^^^ 0xffffffff) &&& z)

/-- SHA-256 `Maj`. -/
def shaMaj (x y z : Nat) : Nat := (x &&& y) ^^^ (x &&& z) ^^^ (y &&& z)

/-- SHA-256 `Σ₀`. -/
def bigSigma0 (x : Nat) : Nat := rotr32 2 x ^^^ rotr32 13 x ^^^ rotr32 22 x

/-- SHA-256 `Σ₁`. -/
def bigSigma1 (x : Nat) : Nat := rotr32 6 x ^^^ rotr32 11 x ^^^ rotr32 25 x

/-- SHA-256 `σ₀`. -/
def smallSigma0 (x : Nat) : Nat := rotr32 7 x ^^^ rotr32 18 x ^^^ (x >>> 3)

/-- SHA-256 `σ₁`. -/
def smallSigma1 (x : Nat) : Nat := rotr32 17 x ^^^ rotr32 19 x ^^^ (x >>> 10)

/-- The 64 SHA-256 round constants. -/
def sha256K : List Nat :=
  [0x428A2F98, 0x71374491, 0xB5C0FBCF, 0xE9B5DBA5, 0x3956C25B, 0x59F111F1,
   0x923F82A4, 0xAB1C5ED5, 0xD807AA98, 0x12835B01, 0x243185BE, 0x550C7DC3,
   0x72BE5D74, 0x80DEB1FE, 0x9BDC06A7, 0xC19BF174, 0xE49B69C1, 0xEFBE4786,
   0x0FC19DC6, 0x240CA1CC, 0x2DE92C6F, 0x4A7484AA, 0x5CB0A9DC, 0x76F988DA,
   0x983E5152, 0xA831C66D, 0xB00327C8, 0xBF597FC7, 0xC6E00BF3, 0xD5A79147,
   0x06CA6351, 0x14292967, 0x27B70A85, 0x2E1B2138, 0x4D2C6DFC, 0x53380D13,
   0x650A7354, 0x766A0ABB, 0x81C2C92E, 0x92722C85, 0xA2BFE8A1, 0xA81A664B,
   0xC24B8B70, 0xC76C51A3, 0xD192E819, 0xD6990624, 0xF40E3585, 0x106AA070,
   0x19A4C116, 0x1E376C08, 0x2748774C, 0x34B0BCB5, 0x391C0CB3, 0x4ED8AA4A,
   0x5B9CCA4F, 0x682E6FF3, 0x748F82EE, 0x78A5636F, 0x84C87814, 0x8CC70208,
   0x90BEFFFA, 0xA4506CEB, 0xBEF9A3F7, 0xC67178F2]

/-- The SHA-256 initial hash value. -/
def sha256Init : List Nat :=
  [0x6a09e667, 0xbb67ae85, 0x3c6ef372, 0xa54ff53a,
   0x510e527f, 0x9b05688c, 0x1f83d9ab, 0x5be0cd19]

/-- Append the next message-schedule word. -/
def scheduleStep (w : List Nat) : List Nat :=
  let t := w.length
  w ++ [(smallSigma1 (w.getD (t - 2) 0) + w.getD (t - 7) 0 +
         smallSigma0 (w.getD (t - 15) 0) + w.getD (t - 16) 0) % 4294967296]

/-- Extend the 16 block words to the 64-word message schedule. -/
def schedule (w16 : List Nat) : List Nat := scheduleStep^[48] w16

/-- One SHA-256 round on the 8-word working state. -/
def sha256Round (w k : Nat) : List Nat → List Nat
  | [a, b, c, d, e, f, g, h] =>
    let t1 := (h + bigSigma1 e + shaCh e f g + k + w) % 4294967296
    let t2 := (bigSigma0 a + shaMaj a b c) % 4294967296
    [(t1 + t2) % 4294967296, a, b, c, (d + t1) % 4294967296, e, f, g]
  | s => s

/-- Big-endian 4-byte grouping of a byte list into 32-bit words. -/
def bytesToWords : List Nat → List Nat
  | b0 :: b1 :: b2 :: b3 :: rest =>
    (((b0 * 256 + b1) * 256 + b2) * 256 + b3) :: bytesToWords rest
  | _ => []

/-- A `Nat` as 8 big-endian bytes. -/
def be64Bytes (n : Nat) : List Nat :=
  [(n >>> 56) &&& 255, (n >>> 48) &&& 255, (n >>> 40) &&& 255, (n >>> 32) &&& 255,
   (n >>> 24) &&& 255, (n >>> 16) &&& 255, (n >>> 8) &&& 255, n &&& 255]

/-- A 32-bit word as 4 big-endian bytes. -/
def be32Bytes (n : Nat) : List Nat :=
  [(n >>> 24) &&& 255, (n >>> 16) &&& 255, (n >>> 8) &&& 255, n &&& 255]

/-- SHA-256 padding: `0x80`, zeros to 56 mod 64, then the 64-bit bit length. -/
def sha256Pad (msg : List Nat) : List Nat :=
  let len := msg.length
  let k := (64 + 56 - ((len + 1) % 64)) % 64
  msg ++ [0x80] ++ List.replicate k 0 ++ be64Bytes (8 * len)

/-- Compress one 64-byte block into the hash state. -/
def compressBlock (h : List Nat) (block : List Nat) : List Nat :=
  let w := schedule (bytesToWords block)
  let final := (sha256K.zip w).foldl (fun s kw => sha256Round kw.2 kw.1 s) h
  List.zipWith (fun x y => (x + y) % 4294967296) h final

/-- Split a byte list into 64-byte blocks (fuelled by the list length). -/
def chunks64Go : Nat → List Nat → List (List Nat)
  | 0, _ => []
  | _, [] => []
  | fuel + 1, xs => xs.take 64 :: chunks64Go fuel (xs.drop 64)

/-- SHA-256 of a byte list, as its 32 digest bytes. -/
def sha256 (msg : List Nat) : List Nat :=
  let padded := sha256Pad msg
  ((chunks64Go padded.length padded).foldl compressBlock sha256Init).flatMap be32Bytes

/-- UTF-8 bytes of one character. -/
def utf8EncodeChar (c : Char) : List Nat :=
  let n := c.toNat
  if n < 0x80 then [n]
  else if n < 0x800 then [0xC0 ||| (n >>> 6), 0x80 ||| (n &&& 0x3F)]
  else if n < 0x10000 then
    [0xE0 ||| (n >>> 12), 0x80 ||| ((n >>> 6) &&& 0x3F), 0x80 ||| (n &&& 0x3F)]
  else
    [0xF0 ||| (n >>> 18), 0x80 ||| ((n >>> 12) &&& 0x3F), 0x80 ||| ((n >>> 6) &&& 0x3F),
     0x80 ||| (n &&& 0x3F)]

/-- UTF-8 bytes of a string, the model of Go's `[]byte(s)`. -/
def utf8Bytes (s : String) : List Nat := (s.toList.map utf8EncodeChar).flatten

/-- `binary.BigEndian.Uint64` over the first eight bytes. -/
def beUint64 (bytes : List Nat) : Nat :=
  (bytes.take 8).foldl (fun acc b => acc * 256 + b) 0

/-! ## A/B selection policies (`agentic/pkg/agent/skills/ab.go`)

The agentic stack's `skills.Skill` carries the variant id and weight directly
on the skill record; the fields not consulted by the selectors (name,
description, triggers, examples, ...) are omitted from the model. -/

/-- The selector-relevant fields of `skills.Skill` from
`agentic/pkg/agent/skills/types` (`part_006`). -/
structure ASkill where
  id : String
  variant : String := ""
  weight : Int := 0
  instructions : String := ""
deriving DecidableEq

/-- The `if w <= 0 { w = 1 }` clamping inside `ABSelector.Weighted`. -/
def clampWeight (w : Int) : Int := if w ≤ 0 then 1 else w

/-- The cumulative walk of `ABSelector.Weighted`, with clamped weights and
fallback `variants[0]`. -/
def walkAB (r : Int) (fallback : ASkill) : Int → List ASkill → ASkill
  | _, [] => fallback
  | cumulative, v :: rest =>
    if r < cumulative + clampWeight v.weight then v
    else walkAB r fallback (cumulative + clampWeight v.weight) rest

/-- `ABSelector.Weighted` from `ab.go`.  `rand` models `s.rng.Intn`: the
draw the generator produces for a given bound (the claims hold for every
draw, so it is universally quantified rather than a seeded PRNG). -/
def ABSelector.Weighted (rand : Int → Int) (variants : List ASkill) : Option ASkill :=
  match variants with
  | [] => none
  | v0 :: _ =>
    let totalWeight := (variants.map (fun v => clampWeight v.weight)).sum
    some (walkAB (rand totalWeight) v0 0 variants)

/-- `ABSelector.Sticky` from `ab.go`: index the variant list by the
big-endian first eight bytes of `sha256(identifier ++ id)` modulo the
*number* of variants.  It reads neither the RNG nor the weights. -/
def ABSelector.Sticky (identifier id : String) (variants : List ASkill) : Option ASkill :=
  match variants with
  | [] => none
  | v0 :: _ =>
    let sum := sha256 (utf8Bytes identifier ++ utf8Bytes id)
    let idx := beUint64 (sum.take 8) % variants.length
    some ((variants.get? idx).getD v0)

/-- Replace the weights of a variant list (for stating that a selector is
insensitive to weights). -/
def reweight (variants : List ASkill) (ws : List Int) : List ASkill :=
  List.zipWith (fun v w => { v with weight := w }) variants ws

/-! ## Definitions modelled from the spec's words (for refinement claims)

These two definitions follow the specification text, not the source; each is
compared with the corresponding source-derived definition above. -/

/-- The cumulative walk with *raw* weights, as the spec's sticky bullet
describes (no clamping is mentioned there). -/
def specWalk (r : Int) (fallback : ASkill) : Int → List ASkill → ASkill
  | _, [] => fallback
  | cumulative, v :: rest =>
    if r < cumulative + v.weight then v
    else specWalk r fallback (cumulative + v.weight) rest

/-- Modelled from the spec: §4.4 *Sticky(identifier)* — "deterministic —
hash(identifier ‖ skill.id) mod total-weight, then walk the cumulative-weight
table", with the same SHA-256/first-8-bytes hash the implementation uses. -/
def specStickySelect (identifier id : String) (variants : List ASkill) : Option ASkill :=
  match variants with
  | [] => none
  | v0 :: _ =>
    let h := beUint64 ((sha256 (utf8Bytes identifier ++ utf8Bytes id)).take 8)
    let totalWeight := (variants.map (·.weight)).sum
    if totalWeight = 0 then none
    else some (specWalk ((h : Int).tmod totalWeight) v0 0 variants)

/-- Type conformance as the spec's §4.6 describes it. -/
def specTypeOk (t : String) (v : Json) : Bool :=
  match t with
  | "string" => match v with | .str _ => true | _ => false
  | "number" => match v with | .num _ => true | _ => false
  | "integer" => match v with | .num _ => true | _ => false
  | "boolean" => match v with | .bool _ => true | _ => false
  | "object" => match v with | .obj _ => true | _ => false
  | "array" => match v with | .arr _ => true | _ => false
  | _ => true

mutual

/-- Modelled from the spec: §4.6 deeper structural validation — type
conformance, enum membership, arrays validated element-wise against `items`,
nested objects validated recursively. -/
def specValidatesProp : PropertySchema → Json → Bool
  | .node t _ items props enum, v =>
    specTypeOk t v &&
    (enum.isEmpty || (match v with | .str s => enum.contains s | _ => true)) &&
    (match items, v with
     | some isch, .arr es => es.all (fun e => specValidatesProp isch e)
     | _, _ => true) &&
    (match v with
     | .obj fields => specValidatesFields props fields
     | _ => true)

/-- Validate each declared property that is present in the object. -/
def specValidatesFields : List (String × PropertySchema) → List (String × Json) → Bool
  | [], _ => true
  | (k, p) :: rest, fields =>
    (match lookupField fields k with
     | some v => specValidatesProp p v
     | none => true) && specValidatesFields rest fields

end

/-- Modelled from the spec: §4.6 — the response must be a JSON object,
contain every `required` name, and satisfy the deeper structural checks the
schema declares. -/
def specValidateResponse (schema : OutputSchema) (response : Content) : Bool :=
  match parseObj response with
  | none => false
  | some fields =>
    schema.required.all (fun r => (lookupField fields r).isSome) &&
    specValidatesFields schema.properties fields

/-! ## Helper lemmas -/

/-- Clamping to a positive weight is idempotent. -/
theorem clampWeight_clamp (w : Int) : clampWeight (clampWeight w) = clampWeight w := by
  by_cases h : w ≤ 0 <;> simp [clampWeight, h]

/-- Clamp every weight of a variant list. -/
def clampAll (variants : List ASkill) : List ASkill :=
  variants.map (fun v => { v with weight := clampWeight v.weight })

/-- The weighted walk only looks at clamped weights, so pre-clamping the
list does not change the chosen variant id. -/
theorem walkAB_clampAll (vs : List ASkill) (r : Int) :
    ∀ (c : Int) (fb fb' : ASkill), fb'.variant = fb.variant →
      (walkAB r fb' c (clampAll vs)).variant = (walkAB r fb c vs).variant := by
  induction vs with
  | nil => intro c fb fb' h; simpa [walkAB, clampAll] using h
  | cons v rest ih =>
    intro c fb fb' h
    simp only [clampAll, List.map_cons, walkAB, clampWeight_clamp]
    split
    · rfl
    · exact ih (c + clampWeight v.weight) fb fb' h

/-- Pre-clamping does not change the clamped total weight. -/
theorem clampAll_total (vs : List ASkill) :
    ((clampAll vs).map (fun v => clampWeight v.weight)).sum =
      (vs.map (fun v => clampWeight v.weight)).sum := by
  induction vs with
  | nil => rfl
  | cons v rest ih => simp [clampAll, clampWeight_clamp] at ih ⊢; omega

/-- Unfolding `clampAll` one step. -/
theorem clampAll_cons (v0 : ASkill) (rest : List ASkill) :
    clampAll (v0 :: rest) = { v0 with weight := clampWeight v0.weight } :: clampAll rest := rfl

/-- `ABSelector.Weighted` is invariant (up to the chosen variant id) under
pre-clamping the weights: zero/negative weights already count as 1. -/
theorem weighted_clampAll (rand : Int → Int) (vs : List ASkill) :
    (ABSelector.Weighted rand (clampAll vs)).map (·.variant) =
      (ABSelector.Weighted rand vs).map (·.variant) := by
  cases vs with
  | nil => rfl
  | cons v0 rest =>
    show (ABSelector.Weighted rand ({ v0 with weight := clampWeight v0.weight } :: clampAll rest)).map (·.variant) = _
    simp only [ABSelector.Weighted, Option.map_some]
    refine congrArg some ?_
    rw [show ({ v0 with weight := clampWeight v0.weight } :: clampAll rest : List ASkill) =
      clampAll (v0 :: rest) from rfl, clampAll_total]
    exact walkAB_clampAll (v0 :: rest) _ 0 v0 _ rfl

/-- `getD` respects a projection that two options agree on. -/
theorem optionGetD_variant (o o' : Option ASkill) (fb fb' : ASkill)
    (h1 : o.map (·.variant) = o'.map (·.variant)) (h2 : fb.variant = fb'.variant) :
    (o.getD fb).variant = (o'.getD fb').variant := by
  cases o <;> cases o' <;> simp_all

/-- Reweighting a variant list leaves every position's variant id alone. -/
theorem reweight_get_variant (vs : List ASkill) :
    ∀ (ws : List Int) (i : Nat), ws.length = vs.length →
      ((reweight vs ws).get? i).map (·.variant) = (vs.get? i).map (·.variant) := by
  induction vs with
  | nil => intro ws i _; simp [reweight]
  | cons v0 rest ih =>
    intro ws i h
    cases ws with
    | nil => simp at h
    | cons w0 ws' =>
      cases i with
      | zero => simp [reweight]
      | succ j =>
        simp only [reweight, List.zipWith_cons_cons, List.get?_cons_succ]
        exact ih ws' j (by simpa using h)

/-- Reweighting preserves the length. -/
theorem reweight_length (vs : List ASkill) (ws : List Int) (h : ws.length = vs.length) :
    (reweight vs ws).length = vs.length := by
  simp [reweight, List.length_zipWith, h]

/-! ## Claim C5 — weighted selection and zero/negative weights -/

/-- C5 counterexample: on a skill whose declared variants all have weight 0,
`SDK.selectVariant` reaches `seed % int64(totalWeight)` with a zero divisor
and panics (modelled as the error), so weighted selection in the engine does
not treat zero weights as 1 and does not always return a variant. -/
theorem c5_zero_weight_panic_cex :
    selectVariant
      { id := "support", instructions := "Help the user.",
        variants := [{ variant := "A", weight := 0, instructions := "a" },
                     { variant := "B", weight := 0, instructions := "b" }] }
      "" "user-42" 0 = .error "integer divide by zero" := rfl

/-- C5 (amended): `ABSelector.Weighted` (ab.go) treats each zero-or-negative
weight as 1 — its choice is invariant under pre-clamping the weights — and
always returns a variant for a non-empty list; the engine's `selectVariant`
performs no clamping and fails (a division-by-zero panic) exactly when no
requested variant matches, variants are declared, and the raw weights sum to
zero. -/
theorem c5_weighted_clamping (rand : Int → Int) (variants : List ASkill)
    (h : variants ≠ []) :
    (ABSelector.Weighted rand variants).isSome = true ∧
    (ABSelector.Weighted rand (clampAll variants)).map (·.variant) =
      (ABSelector.Weighted rand variants).map (·.variant) ∧
    (∀ (skill : Skill) (requested userID : String) (now : Nat),
      (∃ msg, selectVariant skill requested userID now = .error msg) ↔
        ((if requested = "" then none
          else skill.variants.find? (fun v => v.variant = requested)) = none ∧
         skill.variants ≠ [] ∧ (skill.variants.map (·.weight)).sum = 0)) := by
  obtain ⟨v0, rest, rfl⟩ : ∃ v0 rest, variants = v0 :: rest := by
    cases variants with
    | nil => exact absurd rfl h
    | cons v0 rest => exact ⟨v0, rest, rfl⟩
  refine ⟨by simp [ABSelector.Weighted], weighted_clampAll rand (v0 :: rest), ?_⟩
  intro skill requested userID now
  unfold selectVariant
  rcases hF : (if requested = "" then none
      else skill.variants.find? fun v => v.variant = requested) with _ | v
  · rw [hF]
    cases hv : skill.variants with
    | nil => simp
    | cons w0 wrest =>
      dsimp only
      split_ifs with htot <;> simp_all
  · rw [hF]; simp

/-- C5 witness: the amended statement at a concrete one-variant list. -/
theorem c5_weighted_clamping_witness :
    (ABSelector.Weighted (fun _ => 0) [⟨"s", "A", 0, "i"⟩]).isSome = true ∧
    (ABSelector.Weighted (fun _ => 0) (clampAll [⟨"s", "A", 0, "i"⟩])).map (·.variant) =
      (ABSelector.Weighted (fun _ => 0) [⟨"s", "A", 0, "i"⟩]).map (·.variant) ∧
    (∀ (skill : Skill) (requested userID : String) (now : Nat),
      (∃ msg, selectVariant skill requested userID now = .error msg) ↔
        ((if requested = "" then none
          else skill.variants.find? (fun v => v.variant = requested)) = none ∧
         skill.variants ≠ [] ∧ (skill.variants.map (·.weight)).sum = 0)) :=
  c5_weighted_clamping (fun _ => 0) [⟨"s", "A", 0, "i"⟩] (by decide)

/-! ## Claim C10 — unmatched requested variant falls back -/

/-- C10 counterexample: with a requested variant id that matches nothing and
a declared variant of weight 0, the weighted fallback inside `selectVariant`
panics, so variant selection *can* fail after the silent fallback. -/
theorem c10_unmatched_fallback_cex :
    selectVariant
      { id := "faq", instructions := "Answer.",
        variants := [{ variant := "A", weight := 0, instructions := "va" }] }
      "missing" "" 5 = .error "integer divide by zero" := rfl

/-- C10 (amended): an unmatched requested variant id silently falls back to
the weighted selection — the selection behaves exactly as if no variant had
been requested, including the divide-by-zero panic when the weights sum to
zero — and for a skill with no declared variants `selectVariant` returns the
synthetic variant with empty id and the skill's own instructions. -/
theorem c10_unmatched_requested_fallback (skill : Skill) (requested userID : String)
    (now : Nat) (hreq : requested ≠ "")
    (hfind : skill.variants.find? (fun v => v.variant = requested) = none) :
    selectVariant skill requested userID now = selectVariant skill "" userID now ∧
    (skill.variants = [] →
      selectVariant skill requested userID now =
        .ok { variant := "", weight := 0, instructions := skill.instructions }) := by
  constructor
  · unfold selectVariant
    rw [if_neg hreq, hfind, if_pos rfl]
  · intro hv
    unfold selectVariant
    rw [if_neg hreq, hfind, hv]

/-- C10 witness: the amended statement at a concrete skill. -/
theorem c10_unmatched_requested_fallback_witness :
    selectVariant { id := "faq", instructions := "Answer." } "missing" "u" 7 =
        selectVariant { id := "faq", instructions := "Answer." } "" "u" 7 ∧
    (({ id := "faq", instructions := "Answer." } : Skill).variants = [] →
      selectVariant { id := "faq", instructions := "Answer." } "missing" "u" 7 =
        .ok { variant := "", weight := 0, instructions := "Answer." }) :=
  c10_unmatched_requested_fallback { id := "faq", instructions := "Answer." }
    "missing" "u" 7 (by decide) rfl

/-! ## Claim C3 — sticky variant selection -/

/-- The engine skill used to exhibit the time dependence of
`SDK.selectVariant`'s sticky path. -/
def skillC3 : Skill :=
  { id := "support", instructions := "Help.",
    variants := [{ variant := "A", weight := 1, instructions := "a" },
                 { variant := "B", weight := 1, instructions := "b" }] }

/-- The variant list used to compare `ABSelector.Sticky` with the spec's
hash-mod-total-weight description. -/
def vsC3 : List ASkill :=
  [{ id := "support", variant := "A", weight := 1, instructions := "a" },
   { id := "support", variant := "B", weight := 3, instructions := "b" }]

/-- C3 counterexample: (1) `ABSelector.Sticky` disagrees at a concrete input
with the spec's "hash mod total-weight, then walk the cumulative-weight
table" formula (the code indexes by hash mod the *number* of variants,
ignoring weights); (2) the engine's `selectVariant`, whose seed adds
`time.Now().UnixNano()`, returns different variants for the same
(identifier, skill) at two different times, so it is not a deterministic
function of that pair. -/
theorem c3_sticky_cex :
    ABSelector.Sticky "user-5" "support" vsC3 ≠ specStickySelect "user-5" "support" vsC3 ∧
    (selectVariant skillC3 "" "user-42" 0).toOption.map (·.variant) ≠
      (selectVariant skillC3 "" "user-42" 1).toOption.map (·.variant) := by
  constructor
  · decide
  · decide

/-- C3 (amended): `ABSelector.Sticky` is a deterministic function of the
(identifier, skill id, variant list): it takes no seed, always returns a
variant for a non-empty list, and its choice ignores the variant weights (it
is invariant under arbitrary reweighting) — it indexes the list by the
first eight digest bytes of `sha256(identifier ‖ id)` mod the number of
variants rather than mod the total weight.  The engine's `selectVariant`
sticky path is, by contrast, seeded with the current time (see the
counterexample). -/
theorem c3_sticky_weight_blind (identifier id : String) (vs : List ASkill)
    (ws : List Int) (h : ws.length = vs.length) :
    (ABSelector.Sticky identifier id (reweight vs ws)).map (·.variant) =
      (ABSelector.Sticky identifier id vs).map (·.variant) ∧
    (vs ≠ [] → (ABSelector.Sticky identifier id vs).isSome = true) := by
  constructor
  · cases hv : vs with
    | nil => subst hv; cases ws <;> simp [reweight, ABSelector.Sticky]
    | cons v0 rest =>
      subst hv
      cases ws with
      | nil => simp at h
      | cons w0 ws' =>
        simp only [reweight, List.zipWith_cons_cons, ABSelector.Sticky, Option.map_some]
        refine congrArg some ?_
        have hlen : (reweight (v0 :: rest) (w0 :: ws')).length = (v0 :: rest).length :=
          reweight_length _ _ h
        simp only [reweight, List.zipWith_cons_cons] at hlen
        rw [hlen]
        exact optionGetD_variant _ _ _ _
          (by
            have := reweight_get_variant (v0 :: rest) (w0 :: ws')
              (beUint64 ((sha256 (utf8Bytes identifier ++ utf8Bytes id)).take 8) %
                (v0 :: rest).length) h
            simpa [reweight] using this)
          rfl
  · intro hne
    cases vs with
    | nil => exact absurd rfl hne
    | cons v0 rest => simp [ABSelector.Sticky]

/-- C3 witness: the amended statement at a concrete reweighting. -/
theorem c3_sticky_weight_blind_witness :
    (ABSelector.Sticky "user-5" "support" (reweight vsC3 [7, -2])).map (·.variant) =
      (ABSelector.Sticky "user-5" "support" vsC3).map (·.variant) ∧
    (vsC3 ≠ [] → (ABSelector.Sticky "user-5" "support" vsC3).isSome = true) :=
  c3_sticky_weight_blind "user-5" "support" vsC3 [7, -2] (by decide)

/-! ## Claim C6 — depth of schema validation -/

/-- The required-fields loop accepts exactly when every required name is
present. -/
theorem checkRequired_ok_iff (fields : List (String × Json)) (rs : List String) :
    checkRequired fields rs = .ok () ↔ ∀ r ∈ rs, (lookupField fields r).isSome = true := by
  induction rs with
  | nil => simp [checkRequired]
  | cons r rest ih =>
    simp only [checkRequired]
    split_ifs with hr
    · simp [hr, ih]
    · simp [hr]

/-- A schema declaring a string type with an enum, an array with `items`,
and a nested object (used to probe the validator's depth). -/
def schemaC6 : OutputSchema :=
  { type := "object"
    properties :=
      [("answer", .node "string" "" none [] ["yes", "no"]),
       ("tags", .node "array" "" (some (.node "string" "" none [] [])) [] []),
       ("meta", .node "object" "" none [("count", .node "number" "" none [] [])] [])]
    required := ["answer"] }

/-- The skill carrying `schemaC6`. -/
def skillC6 : Skill := { id := "qa", instructions := "Answer.", output := some schemaC6 }

/-- A response violating the declared type, the array `items` and the
nested object property all at once. -/
def respC6 : Content :=
  .json (.obj [("answer", .num 42), ("tags", .arr [.num 1]),
               ("meta", .obj [("count", .str "x")])])

/-- A response violating the declared enum membership. -/
def respC6b : Content := .json (.obj [("answer", .str "maybe")])

/-- C6 counterexample: `validateResponse` accepts a response whose value has
the wrong type, whose array element violates `items`, whose nested object
violates the nested property type, and (separately) whose string is outside
the declared enum — while the spec's deeper structural validation rejects
both responses.  The validator therefore performs none of the declared
deeper checks. -/
theorem c6_no_deep_validation_cex :
    validateResponse skillC6 respC6 = .ok () ∧
    validateResponse skillC6 respC6b = .ok () ∧
    specValidateResponse schemaC6 respC6 = false ∧
    specValidateResponse schemaC6 respC6b = false := by
  exact ⟨rfl, rfl, by decide, by decide⟩

/-- C6 (amended): with a declared output schema, `validateResponse` checks
exactly that the content parses as a JSON object and that every name in
`required` is present; declared types, enums, array `items` and nested
properties are rendered into the prompt but never checked. -/
theorem c6_validate_required_only (skill : Skill) (response : Content) :
    validateResponse skill response = .ok () ↔
      (skill.output = none ∨
       ∃ schema fields, skill.output = some schema ∧ parseObj response = some fields ∧
         ∀ r ∈ schema.required, (lookupField fields r).isSome = true) := by
  unfold validateResponse
  cases ho : skill.output with
  | none => simp
  | some schema =>
    cases hp : parseObj response with
    | none => simp [hp]
    | some fields => simp [hp, checkRequired_ok_iff]

/-! ## Claim C7 — agent-mode message sequence -/

/-- `addInitialData` on a list ending in the user message splices the
system data message in just before it. -/
theorem addInitialData_concat (l : List LLMMessage) (u : LLMMessage) (d : Json) :
    addInitialData (l ++ [u]) d =
      l ++ [{ role := "system", content := .text ("Initial data:\n" ++ d.render) }, u] := by
  simp [addInitialData, List.dropLast_concat, List.getLast?_concat]

/-- A skill with both a context key and an output schema declared. -/
def skillC7 : Skill :=
  { id := "prod", instructions := "Describe the product."
    output := some { type := "object"
                     properties := [("answer", .node "string" "" none [] [])]
                     required := ["answer"] }
    contextInPrompt := ["market"] }

/-- C7 counterexample: for a skill declaring a context key and an output
schema, the agent-mode sequence is *not* the expert-mode sequence minus the
`Available data:` message — `buildAgentMessages` also omits the `Context:`
block and the output-schema block from the system message (the message
contents differ even with no data present). -/
theorem c7_agent_prompt_differs_cex :
    ((buildAgentMessages skillC7 {} { message := "hi" }).map (fun m => m.content.asString)) ≠
      ((buildPrompt skillC7 {} "hi" none (some [("market", .str "SE")])).map
        (fun m => m.content.asString)) := by decide

/-- C7 (amended): the agent-mode sequence equals the expert-mode sequence
with nil data only for skills that declare no context keys and no output
schema (in general agent mode also omits the `Context:` and schema blocks);
and when the pre-hook seeded data, the system `Initial data:` message is
inserted immediately before the final user message. -/
theorem c7_agent_messages (skill : Skill) (variant : SkillVariant) (req : ChatRequest)
    (ctx : RequestContext) (d : Json)
    (hctx : skill.contextInPrompt = []) (hout : skill.output = none) :
    buildAgentMessages skill variant req = buildPrompt skill variant req.message none ctx ∧
    addInitialData (buildAgentMessages skill variant req) d =
      (buildAgentMessages skill variant req).dropLast ++
        [{ role := "system", content := .text ("Initial data:\n" ++ d.render) },
         { role := "user", content := .text req.message }] := by
  constructor
  · have hsys : promptSystemText skill variant ctx = agentSystemText skill variant := by
      unfold promptSystemText agentSystemText
      cases ctx <;> simp [hctx, hout]
    simp [buildPrompt, buildAgentMessages, hsys]
  · have hshape : buildAgentMessages skill variant req =
        ([({ role := "system", content := .text (agentSystemText skill variant) } : LLMMessage)] ++
          exampleMessages skill) ++ [{ role := "user", content := .text req.message }] := by
      rfl
    rw [hshape, addInitialData_concat, List.dropLast_concat]

/-- C7 witness: the amended statement at a concrete skill with neither
context keys nor an output schema. -/
theorem c7_agent_messages_witness :
    buildAgentMessages { id := "s", instructions := "Do." } {} { message := "go" } =
      buildPrompt { id := "s", instructions := "Do." } {} "go" none
        (some [("market", .str "SE")]) ∧
    addInitialData (buildAgentMessages { id := "s", instructions := "Do." } {}
        { message := "go" }) (.num 3) =
      (buildAgentMessages { id := "s", instructions := "Do." } {} { message := "go" }).dropLast ++
        [{ role := "system", content := .text ("Initial data:\n" ++ (Json.num 3).render) },
         { role := "user", content := .text "go" }] :=
  c7_agent_messages { id := "s", instructions := "Do." } {} { message := "go" }
    (some [("market", .str "SE")]) (.num 3) rfl rfl

/-! ## Claim C8 — schema failure persists nothing -/

/-- A skill whose output schema requires the field `answer`. -/
def skillC8 : Skill :=
  { id := "faq", instructions := "Answer."
    output := some { type := "object"
                     properties := [("answer", .node "string" "" none [] [])]
                     required := ["answer"] } }

/-- The LM stub completion returning the final content `{"text":"hi"}`. -/
def llmC8Result : ChatCompletionResult :=
  { message := { role := "assistant", content := .json (.obj [("text", .str "hi")]) } }

/-- An SDK whose LM stub returns the final content `{"text":"hi"}`. -/
def cfgC8 : Config :=
  Config.withDefaults { llm := fun _ _ => .ok llmC8Result, skills := [skillC8] }

/-- C8: when the skill requires `answer` and the LM returns `{"text":"hi"}`,
the turn fails with the schema-validation error naming the missing field
`answer`, and the conversation store is left exactly as it was — no
assistant (nor user) message is persisted by the failed turn.  Holds for
every starting store. -/
theorem c8_schema_failure_unchanged_store (s0 : Store) :
    (chat cfgC8 { message := "tell me", skillID := "faq" } { store := s0 }).1 =
      .error (.sdkError (NewSchemaError "response validation failed"
        "missing required field: answer")) ∧
    (chat cfgC8 { message := "tell me", skillID := "faq" } { store := s0 }).2.store = s0 :=
  ⟨rfl, rfl⟩

/-! ## Claim C9 — fields of a successful result -/

/-- Generated ids are never empty (`uuid.New().String()` is 36 characters;
the model's supply is `uuid-<n>`). -/
theorem mkId_ne_empty (n : Nat) : mkId n ≠ "" := by
  intro h
  have hlen := congrArg String.length h
  simp [mkId, String.length_append] at hlen
  exact absurd hlen.1 (by decide)

/-- A skill found by id lookup is a registered skill. -/
theorem skillsGet_mem {skills : List Skill} {id : String} {s : Skill}
    (h : skillsGet skills id = some s) : s ∈ skills :=
  List.mem_of_find?_eq_some h

/-- A routed skill is a registered skill. -/
theorem routerRoute_mem {skills : List Skill} {d msg : String} {s : Skill}
    (h : routerRoute skills d msg = some s) : s ∈ skills := by
  unfold routerRoute at h
  cases hm : skillsMatch skills msg with
  | nil =>
    rw [hm] at h
    have h' : (if d = "" then (none : Option Skill) else skillsGet skills d) = some s := h
    split_ifs at h' with hd
    exact skillsGet_mem h'
  | cons m rest =>
    rw [hm] at h
    injection h with h
    have hmem : m ∈ skillsMatch skills msg := by rw [hm]; exact List.mem_cons_self _ _
    exact h ▸ List.mem_of_mem_filter hmem

/-- A skill produced by `routeToSkill` is a registered skill. -/
theorem routeToSkill_mem {cfg : Config} {req : ChatRequest} {skill : Skill}
    (h : routeToSkill cfg req = .ok skill) : skill ∈ cfg.skills := by
  unfold routeToSkill at h
  split_ifs at h with hid
  · cases hg : skillsGet cfg.skills req.skillID with
    | none => rw [hg] at h; exact absurd h (by simp)
    | some s => rw [hg] at h; injection h with h; subst h; exact skillsGet_mem hg
  · cases hr : routerRoute cfg.skills cfg.defaultSkillID req.message with
    | none => rw [hr] at h; exact absurd h (by simp)
    | some s => rw [hr] at h; injection h with h; subst h; exact routerRoute_mem hr

/-- A confirmation short-circuit carries a freshly generated message id. -/
theorem execCalls_shortCircuit_messageID
    (vn : String) (usage : TokenUsage) (srcs : List Source) (acts : List Action) :
    ∀ (calls : List LLMToolCall) (msgs : List LLMMessage) (tcs : List ToolCall)
      (st : RunState) (r : ChatResult) (st' : RunState),
      execCalls vn usage srcs acts calls msgs tcs st = (.shortCircuit r, st') →
      ∃ n, r.messageID = mkId n := by
  intro calls
  induction calls with
  | nil =>
    intro msgs tcs st r st' h
    simp [execCalls] at h
  | cons call rest ih =>
    intro msgs tcs st r st' h
    rw [execCalls] at h
    rcases hx : executeToolCall call srcs acts st with ⟨outcome, st₂⟩
    rw [hx] at h
    cases outcome with
    | confirmation tc =>
      simp only [newId] at h
      obtain ⟨h1, _⟩ := Prod.mk.injEq .. ▸ h
      injection h1 with h1
      exact ⟨st₂.nextId, by rw [← h1]⟩
    | failed tc e => simp at h
    | ok result tc => exact ih _ _ _ _ _ h

/-- A successful agent-loop exit carries a freshly generated message id. -/
theorem runAgentLoop_ok_messageID (cfg : Config) (skill : Skill) (vn : String)
    (llmTools : List LLMTool) (srcs : List Source) (acts : List Action)
    (fd : Option Json) (req : ChatRequest) (md : List (String × Json)) :
    ∀ (fuel : Nat) (msgs : List LLMMessage) (tcs : List ToolCall) (usage : TokenUsage)
      (st : RunState) (r : ChatResult) (st' : RunState),
      runAgentLoop cfg skill vn llmTools srcs acts fd req md fuel msgs tcs usage st =
        (.ok r, st') →
      ∃ n, r.messageID = mkId n := by
  intro fuel
  induction fuel with
  | zero =>
    intro msgs tcs usage st r st' h
    simp [runAgentLoop] at h
  | succ fuel ih =>
    intro msgs tcs usage st r st' h
    rw [runAgentLoop] at h
    rcases hc : callLLM cfg { model := cfg.model, messages := msgs, tools := llmTools, responseFormat := buildResponseFormat skill } st with ⟨res, st₂⟩
    rw [hc] at h
    cases res with
    | error e => simp at h
    | ok llmResult =>
      by_cases hb : llmResult.message.toolCalls.isEmpty
      · simp only [hb, if_true] at h
        cases hv : validateResponse skill llmResult.message.content with
        | error e => rw [hv] at h; simp at h
        | ok u =>
          cases u
          rw [hv] at h
          dsimp only at h
          cases hps : postHookStep cfg skill req.message req.context fd md vn (addUsage usage llmResult.usage) llmResult.message.content with
          | error f => rw [hps] at h; simp at h
          | ok resp =>
            rw [hps] at h
            simp only [newId] at h
            obtain ⟨h1, _⟩ := Prod.mk.injEq .. ▸ h
            injection h1 with h1
            exact ⟨st₂.nextId, by rw [← h1]⟩
      · simp only [hb, if_false] at h
        rcases he : execCalls vn (addUsage usage llmResult.usage) srcs acts
            llmResult.message.toolCalls (msgs ++ [llmResult.message]) tcs st₂ with ⟨co, st₃⟩
        rw [he] at h
        cases co with
        | done msgs' tcs' => exact ih _ _ _ _ _ _ h
        | shortCircuit r' =>
          obtain ⟨h1, _⟩ := Prod.mk.injEq .. ▸ h
          injection h1 with h1
          subst h1
          exact execCalls_shortCircuit_messageID vn _ srcs acts _ _ _ _ _ _ he
        | failed f => simp at h

/-- A successful agentic-mode result carries a freshly generated message
id. -/
theorem executeAgenticMode_ok_messageID (cfg : Config) (req : ChatRequest) (skill : Skill)
    (cid : String) (st : RunState) (r : ChatResult) (st' : RunState)
    (h : executeAgenticMode cfg req skill cid st = (.ok r, st')) :
    ∃ n, r.messageID = mkId n := by
  unfold executeAgenticMode at h
  rcases hv : selectVariant skill req.variant (ctxString req.context "userId" "") st.clock
    with msg | variant
  · rw [hv] at h; simp at h
  · rw [hv] at h
    rcases ht : toolsGetForSkill cfg.sources cfg.actions skill.tools with e | ⟨sources, actions⟩
    · rw [ht] at h; simp at h
    · rw [ht] at h
      dsimp only at h
      rcases hpre : preHookStep cfg skill req.message req.context none with f | ⟨fetchedData, metadata⟩
      · rw [hpre] at h; simp at h
      · rw [hpre] at h
        dsimp only at h
        exact runAgentLoop_ok_messageID cfg skill variant.variant _ sources actions fetchedData
          req metadata _ _ _ _ _ _ _ h

/-- A successful expert-mode result carries a freshly generated message
id. -/
theorem executeExpertMode_ok_messageID (cfg : Config) (req : ChatRequest) (skill : Skill)
    (cid : String) (st : RunState) (r : ChatResult) (st' : RunState)
    (h : executeExpertMode cfg req skill cid st = (.ok r, st')) :
    ∃ n, r.messageID = mkId n := by
  unfold executeExpertMode at h
  dsimp only at h
  rcases hf : expertFetchStep (cfg.experts.find? (fun e => e.skillID = skill.id)) { message := req.message, entityID := req.entityID, context := req.context, conversationID := cid, conversationHistory := storeGetMessages st.store cid 20 } with f | ⟨fetched, fetchCalls⟩
  · rw [hf] at h; simp at h
  · rw [hf] at h
    dsimp only at h
    rcases hpre : preHookStep cfg skill req.message req.context fetched with f | ⟨fetchedData, metadata⟩
    · rw [hpre] at h; simp at h
    · rw [hpre] at h
      dsimp only at h
      rcases hes : ExecuteSkill cfg skill.id { message := req.message, data := fetchedData, context := req.context, variant := req.variant, conversationID := cid } (fetchCalls.foldl (fun s tc => pushEvent s (Event.toolRun tc.name)) st) with ⟨res, st₂⟩
      rw [hes] at h
      cases res with
      | error f => simp at h
      | ok skillResult =>
        dsimp only at h
        rcases hps : postHookStep cfg skill req.message req.context fetchedData metadata skillResult.variant skillResult.tokensUsed skillResult.response with f | resp
        · rw [hps] at h; simp at h
        · rw [hps] at h
          dsimp only at h
          rcases hpp : expertPostProcessStep (cfg.experts.find? (fun e => e.skillID = skill.id)) { message := req.message, entityID := req.entityID, context := req.context, conversationID := cid, conversationHistory := storeGetMessages st.store cid 20 } { skillResult with response := resp } fetchedData with f | ⟨response, suggestedAction⟩
          · rw [hpp] at h; simp at h
          · rw [hpp] at h
            simp only [newId] at h
            obtain ⟨h1, _⟩ := Prod.mk.injEq .. ▸ h
            injection h1 with h1
            exact ⟨st₂.nextId, by rw [← h1]⟩

/-- Fields of a successful `chatDispatch` result: the stamped conversation
id, skill id and resolved mode, plus a freshly generated message id. -/
theorem chatDispatch_ok_fields (cfg : Config) (req : ChatRequest) (skill : Skill)
    (cid : String) (startClock : Nat) (st : RunState) (r : ChatResult)
    (h : (chatDispatch cfg req skill cid startClock st).1 = .ok r) :
    r.conversationID = cid ∧ r.skillID = skill.id ∧ r.mode = determineMode cfg req skill ∧
      ∃ n, r.messageID = mkId n := by
  unfold chatDispatch at h
  dsimp only at h
  rcases hx : (if determineMode cfg req skill = ModeExpert then executeExpertMode cfg req skill cid st else if determineMode cfg req skill = ModeAgentic then executeAgenticMode cfg req skill cid st else (.error (.sdkError (NewConfigurationError ("unknown execution mode: " ++ determineMode cfg req skill))), st)) with ⟨res, st₂⟩
  rw [hx] at h
  cases res with
  | error f => simp at h
  | ok result =>
    dsimp only at h
    injection h with h
    subst h
    refine ⟨rfl, rfl, rfl, ?_⟩
    by_cases hm1 : determineMode cfg req skill = ModeExpert
    · rw [if_pos hm1] at hx
      obtain ⟨n, hn⟩ := executeExpertMode_ok_messageID cfg req skill cid st result st₂ hx
      exact ⟨n, hn⟩
    · rw [if_neg hm1] at hx
      by_cases hm2 : determineMode cfg req skill = ModeAgentic
      · rw [if_pos hm2] at hx
        obtain ⟨n, hn⟩ := executeAgenticMode_ok_messageID cfg req skill cid st result st₂ hx
        exact ⟨n, hn⟩
      · rw [if_neg hm2] at hx
        exact absurd hx (by simp)

/-- C9 (amended): every successful chat result carries a non-empty
conversation id, a non-empty (freshly generated) message id, the routed
skill's id, and a mode equal to the resolved mode
(request > skill > config); the skill id is non-empty provided every
registered skill has a non-empty id — the engine itself does not enforce
non-empty skill ids (see the counterexample). -/
theorem c9_success_fields (cfg : Config) (req : ChatRequest) (st : RunState)
    (r : ChatResult) (hrun : (chat cfg req st).1 = .ok r) :
    r.conversationID ≠ "" ∧ r.messageID ≠ "" ∧
    ∃ skill, routeToSkill cfg req = .ok skill ∧ r.skillID = skill.id ∧
      r.mode = determineMode cfg req skill ∧
      ((∀ s ∈ cfg.skills, s.id ≠ "") → r.skillID ≠ "") := by
  unfold chat at hrun
  dsimp only at hrun
  rcases hroute : routeToSkill cfg req with f | skill
  all_goals rw [hroute] at hrun
  · by_cases hc : req.conversationID = "" <;> simp [hc] at hrun
  · rw [← hroute]
    have main : ∀ (cid : String) (st1 : RunState), cid ≠ "" →
        (chatDispatch cfg req skill cid st.clock st1).1 = .ok r →
        r.conversationID ≠ "" ∧ r.messageID ≠ "" ∧
        ∃ skill', routeToSkill cfg req = .ok skill' ∧ r.skillID = skill'.id ∧
          r.mode = determineMode cfg req skill' ∧
          ((∀ s ∈ cfg.skills, s.id ≠ "") → r.skillID ≠ "") := by
      intro cid st1 hcid hd
      obtain ⟨h1, h2, h3, n, h4⟩ := chatDispatch_ok_fields cfg req skill cid st.clock st1 r hd
      refine ⟨h1 ▸ hcid, fun hemp => mkId_ne_empty n (h4 ▸ hemp), skill, hroute, h2, h3, ?_⟩
      intro hids
      rw [h2]
      exact hids skill (routeToSkill_mem hroute)
    by_cases hc : req.conversationID = ""
    · rw [if_pos hc] at hrun
      simp only [newId] at hrun
      exact main (mkId st.nextId) _ (mkId_ne_empty st.nextId) hrun
    · rw [if_neg hc] at hrun
      exact main req.conversationID _ hc hrun

/-- The plain-content LM stub completion used by the C9 scenarios. -/
def llmC9Result : ChatCompletionResult :=
  { message := { role := "assistant", content := .text "ok" } }

/-- An SDK with a registered skill whose id is empty — nothing in
`Registry.Register` or the router prevents this. -/
def cfgC9 : Config :=
  Config.withDefaults
    { llm := fun _ _ => .ok llmC9Result,
      skills := [{ id := "", triggers := ["x"], instructions := "A." }] }

/-- C9 counterexample: a chat request routed (by trigger match) to a
registered skill with an empty id completes successfully and returns an
empty skill id, so a successful result does not always carry a non-empty
skill id. -/
theorem c9_empty_skill_id_cex :
    ((chat cfgC9 { message := "x" } { store := {} }).1.toOption.map (·.skillID)) =
      some "" := by decide

/-- The C9 witness configuration: an ordinary skill with a non-empty id. -/
def cfgC9w : Config :=
  Config.withDefaults
    { llm := fun _ _ => .ok llmC9Result,
      skills := [{ id := "faq", triggers := ["x"], instructions := "A." }] }

/-- The C9 witness request. -/
def reqC9w : ChatRequest := { message := "hello", skillID := "faq", conversationID := "conv1" }

/-- The result the C9 witness run produces. -/
def resC9w : ChatResult :=
  { conversationID := "conv1", messageID := mkId 0, skillID := "faq", variant := "",
    mode := "expert", toolCalls := [], response := some (.text "ok"),
    suggestedAction := none, tokensUsed := {}, duration := 1 }

/-- C9 witness: the amended statement at a concrete successful run. -/
theorem c9_success_fields_witness :
    resC9w.conversationID ≠ "" ∧ resC9w.messageID ≠ "" ∧
    ∃ skill, routeToSkill cfgC9w reqC9w = .ok skill ∧ resC9w.skillID = skill.id ∧
      resC9w.mode = determineMode cfgC9w reqC9w skill ∧
      ((∀ s ∈ cfgC9w.skills, s.id ≠ "") → resC9w.skillID ≠ "") :=
  c9_success_fields cfgC9w reqC9w { store := {} } resC9w rfl

/-! ## Claim C2 — confirmation-requiring actions short-circuit -/

/-- The confirmation-requiring action used by the C2 scenarios. -/
def actC2 : Action :=
  { name := "create_ticket", description := "Create a support ticket",
    execute := fun _ => .ok .null, requiresConfirmation := true }

/-- A skill wired to the confirmation-requiring action. -/
def skillC2 : Skill := { id := "helper", instructions := "Assist.", tools := ["create_ticket"] }

/-- The LM stub completion that calls `create_ticket` on its first turn. -/
def llmC2Result : ChatCompletionResult :=
  { message := { role := "assistant",
                 toolCalls := [{ id := "call-1", type := "function",
                                 function := { name := "create_ticket",
                                               arguments := .json (.obj [("title", .str "Bug")]) } }] } }

/-- The SDK for the C2 scenarios. -/
def cfgC2 : Config :=
  Config.withDefaults
    { llm := fun _ _ => .ok llmC2Result, skills := [skillC2], actions := [actC2] }

/-- C2 counterexample: the confirmation short-circuit returns success with
the `SuggestedAction` for `create_ticket` and no final content after exactly
one LM call, but the recorded `toolCalls` list is empty — the pending call
(whose duration `executeToolCall` did set) is *not* included in it. -/
theorem c2_pending_call_not_recorded_cex :
    ((executeAgenticMode cfgC2 { message := "file a bug" } skillC2 "conv"
        { store := {} }).1.toOption.map
      (fun r => (r.toolCalls.length, r.suggestedAction.map (·.tool), r.response.isSome))) =
        some (0, some "create_ticket", false) ∧
    (executeAgenticMode cfgC2 { message := "file a bug" } skillC2 "conv"
        { store := {} }).2.llmCalls = 1 := by
  exact ⟨rfl, rfl⟩

/-- C2 (amended): when the LM's first turn emits one tool call naming an
action with `requires_confirmation = true` (and no source shadows the
name), the agent loop short-circuits: it returns a *successful* result with
a `SuggestedAction` carrying the tool name, the parsed params and the fixed
reason, no final content, and no further LM call — but the recorded
`toolCalls` list contains only the calls completed before the pending one
(here: none); the pending call itself is omitted. -/
theorem c2_confirmation_short_circuit (cfg : Config) (req : ChatRequest) (skill : Skill)
    (cid : String) (st : RunState) (variant : SkillVariant)
    (sources : List Source) (actions : List Action) (act : Action)
    (nm : String) (params : List (String × Json)) (callC : LLMToolCall)
    (r0 : ChatCompletionResult)
    (hvar : selectVariant skill req.variant (ctxString req.context "userId" "") st.clock =
      .ok variant)
    (htools : toolsGetForSkill cfg.sources cfg.actions skill.tools = .ok (sources, actions))
    (hpre : preHookStep cfg skill req.message req.context none = .ok (none, []))
    (hmax : 0 < cfg.maxAgentTurns)
    (hllm : ∀ ctx, cfg.llm st.llmCalls ctx = .ok r0)
    (hcalls : r0.message.toolCalls = [callC])
    (hnm : callC.function.name = nm)
    (hargs : parseObj callC.function.arguments = some params)
    (hsrc : sources.find? (fun s => s.name = nm) = none)
    (hact : actions.find? (fun a => a.name = nm) = some act)
    (hconf : act.requiresConfirmation = true) :
    (executeAgenticMode cfg req skill cid st).1 =
      .ok { messageID := mkId st.nextId, variant := variant.variant, toolCalls := [],
            response := none,
            suggestedAction := some { tool := nm, params := params,
                                      reason := "Action requires user confirmation" },
            tokensUsed := addUsage {} r0.usage } ∧
    (executeAgenticMode cfg req skill cid st).2.llmCalls = st.llmCalls + 1 := by
  obtain ⟨k, hk⟩ : ∃ k, cfg.maxAgentTurns.toNat = k + 1 := by
    refine ⟨cfg.maxAgentTurns.toNat - 1, ?_⟩
    omega
  unfold executeAgenticMode
  rw [hvar, htools]
  dsimp only
  rw [hpre]
  dsimp only
  rw [hk, runAgentLoop]
  simp only [callLLM, pushEvent]
  rw [hllm _]
  dsimp only
  rw [hcalls]
  dsimp only [List.isEmpty_cons, Bool.false_eq_true, if_false]
  rw [execCalls]
  unfold executeToolCall
  rw [hnm, hargs]
  dsimp only
  rw [hsrc]
  dsimp only
  rw [hact]
  dsimp only
  rw [hconf]
  simp only [if_true, newId, tick]
  exact ⟨rfl, rfl⟩

/-- C2 witness: the amended statement at the concrete `create_ticket`
scenario. -/
theorem c2_confirmation_short_circuit_witness :
    (executeAgenticMode cfgC2 { message := "file a bug" } skillC2 "conv"
        { store := {} }).1 =
      .ok { messageID := mkId 0, variant := "", toolCalls := [],
            response := none,
            suggestedAction := some { tool := "create_ticket",
                                      params := [("title", .str "Bug")],
                                      reason := "Action requires user confirmation" },
            tokensUsed := addUsage {} llmC2Result.usage } ∧
    (executeAgenticMode cfgC2 { message := "file a bug" } skillC2 "conv"
        { store := {} }).2.llmCalls = 0 + 1 :=
  c2_confirmation_short_circuit cfgC2 { message := "file a bug" } skillC2 "conv"
    { store := {} } { variant := "", weight := 0, instructions := "Assist." }
    [] [actC2] actC2 "create_ticket" [("title", .str "Bug")]
    { id := "call-1", type := "function",
      function := { name := "create_ticket",
                    arguments := .json (.obj [("title", .str "Bug")]) } }
    llmC2Result rfl rfl rfl (by decide) (fun _ => rfl) rfl rfl rfl rfl rfl rfl

/-! ## Claim C1 — the agent loop is bounded and the record is discarded -/

/-- Tool execution never performs an LM call. -/
theorem executeToolCall_llmCalls (call : LLMToolCall) (srcs : List Source)
    (acts : List Action) (st : RunState) :
    (executeToolCall call srcs acts st).2.llmCalls = st.llmCalls := by
  unfold executeToolCall
  dsimp only
  repeat' split
  all_goals rfl

/-- The per-turn tool-call loop never performs an LM call. -/
theorem execCalls_llmCalls (vn : String) (usage : TokenUsage) (srcs : List Source)
    (acts : List Action) :
    ∀ (calls : List LLMToolCall) (msgs : List LLMMessage) (tcs : List ToolCall)
      (st : RunState),
      (execCalls vn usage srcs acts calls msgs tcs st).2.llmCalls = st.llmCalls := by
  intro calls
  induction calls with
  | nil => intro msgs tcs st; rfl
  | cons c rest ih =>
    intro msgs tcs st
    rw [execCalls]
    rcases hx : executeToolCall c srcs acts st with ⟨outcome, st₂⟩
    have hpres : st₂.llmCalls = st.llmCalls := by
      have := executeToolCall_llmCalls c srcs acts st
      rw [hx] at this
      exact this
    cases outcome with
    | confirmation tc => simpa [newId] using hpres
    | failed tc e => simpa using hpres
    | ok result tc => rw [ih]; exact hpres

/-- Each loop iteration performs exactly one LM call, so the loop performs
at most `fuel` of them. -/
theorem runAgentLoop_llmCalls_le (cfg : Config) (skill : Skill) (vn : String)
    (llmTools : List LLMTool) (srcs : List Source) (acts : List Action)
    (fd : Option Json) (req : ChatRequest) (md : List (String × Json)) :
    ∀ (fuel : Nat) (msgs : List LLMMessage) (tcs : List ToolCall) (usage : TokenUsage)
      (st : RunState),
      (runAgentLoop cfg skill vn llmTools srcs acts fd req md fuel msgs tcs usage st).2.llmCalls ≤
        st.llmCalls + fuel := by
  intro fuel
  induction fuel with
  | zero => intro msgs tcs usage st; simp [runAgentLoop]
  | succ fuel ih =>
    intro msgs tcs usage st
    rw [runAgentLoop]
    rcases hc : callLLM cfg { model := cfg.model, messages := msgs, tools := llmTools, responseFormat := buildResponseFormat skill } st with ⟨res, st₂⟩
    have hc2 : st₂.llmCalls = st.llmCalls + 1 := by
      have : (callLLM cfg { model := cfg.model, messages := msgs, tools := llmTools, responseFormat := buildResponseFormat skill } st).2.llmCalls = st.llmCalls + 1 := rfl
      rw [hc] at this
      exact this
    cases res with
    | error e => dsimp only; omega
    | ok llmResult =>
      by_cases hb : llmResult.message.toolCalls.isEmpty
      · simp only [hb, if_true]
        split
        · dsimp only; omega
        · split
          · dsimp only; omega
          · simp only [newId]; omega
      · simp only [hb, Bool.false_eq_true, if_false]
        rcases he : execCalls vn (addUsage usage llmResult.usage) srcs acts llmResult.message.toolCalls (msgs ++ [llmResult.message]) tcs st₂ with ⟨co, st₃⟩
        have h3 : st₃.llmCalls = st₂.llmCalls := by
          have := execCalls_llmCalls vn (addUsage usage llmResult.usage) srcs acts llmResult.message.toolCalls (msgs ++ [llmResult.message]) tcs st₂
          rw [he] at this
          exact this
        cases co with
        | done msgs' tcs' =>
          dsimp only
          have := ih msgs' tcs' (addUsage usage llmResult.usage) st₃
          omega
        | shortCircuit r => dsimp only; omega
        | failed f => dsimp only; omega

/-- The C1 bound at the `executeAgenticMode` level: at most
`MaxAgentTurns` LM calls, whatever the provider and tools do. -/
theorem executeAgenticMode_llmCalls_le (cfg : Config) (req : ChatRequest) (skill : Skill)
    (cid : String) (st : RunState) :
    (executeAgenticMode cfg req skill cid st).2.llmCalls ≤
      st.llmCalls + cfg.maxAgentTurns.toNat := by
  unfold executeAgenticMode
  rcases hv : selectVariant skill req.variant (ctxString req.context "userId" "") st.clock
    with msg | variant
  · dsimp only; omega
  · rcases ht : toolsGetForSkill cfg.sources cfg.actions skill.tools with e | ⟨sources, actions⟩
    · dsimp only; omega
    · dsimp only
      rcases hpre : preHookStep cfg skill req.message req.context none
        with f | ⟨fetchedData, metadata⟩
      · dsimp only; omega
      · dsimp only
        exact runAgentLoop_llmCalls_le cfg skill variant.variant _ sources actions
          fetchedData req metadata cfg.maxAgentTurns.toNat _ [] {} st

/-- When the single registered source matches the call's name, the arguments
parse and the fetch succeeds, `executeToolCall` records the call (with its
duration) and succeeds. -/
theorem executeToolCall_src_ok (callC : LLMToolCall) (src : Source) (acts : List Action)
    (params : List (String × Json)) (v : Json) (st : RunState)
    (hargs : parseObj callC.function.arguments = some params)
    (hname : src.name = callC.function.name)
    (hfetch : ∀ input, src.fetch input = .ok v) :
    executeToolCall callC [src] acts st =
      (.ok v.render { name := callC.function.name, params := params, duration := (pushEvent (tick st) (.toolRun callC.function.name)).clock - st.clock },
       pushEvent (tick st) (.toolRun callC.function.name)) := by
  unfold executeToolCall
  rw [hargs]
  dsimp only
  have hfind : List.find? (fun s => decide (s.name = callC.function.name)) [src] = some src :=
    List.find?_cons_of_pos _ (by simp [hname])
  rw [hfind]
  dsimp only
  rw [hfetch]

/-- With a provider stub that answers every turn with the same single tool
call to an always-succeeding source, the agent loop consumes all its fuel,
makes exactly `fuel` LM calls, and ends in the max-turns `SDKError` whose
`details` payload is empty — the accumulated tool-call record is dropped. -/
theorem runAgentLoop_exhausts (cfg : Config) (skill : Skill) (vn : String)
    (llmTools : List LLMTool) (src : Source) (acts : List Action)
    (fd : Option Json) (req : ChatRequest) (md : List (String × Json))
    (r0 : ChatCompletionResult) (callC : LLMToolCall)
    (params : List (String × Json)) (v : Json)
    (hllm : ∀ n ctx, cfg.llm n ctx = .ok r0)
    (hcalls : r0.message.toolCalls = [callC])
    (hargs : parseObj callC.function.arguments = some params)
    (hname : src.name = callC.function.name)
    (hfetch : ∀ input, src.fetch input = .ok v) :
    ∀ (fuel : Nat) (msgs : List LLMMessage) (tcs : List ToolCall)
      (usage : TokenUsage) (st : RunState),
      (runAgentLoop cfg skill vn llmTools [src] acts fd req md fuel msgs tcs usage st).1 =
        .error (.sdkError { code := "INTERNAL_ERROR", message := "max agent turns exceeded",
                            cause := some "maximum agent turns exceeded", details := [] }) ∧
      (runAgentLoop cfg skill vn llmTools [src] acts fd req md fuel msgs tcs usage st).2.llmCalls =
        st.llmCalls + fuel := by
  intro fuel
  induction fuel with
  | zero => intro msgs tcs usage st; exact ⟨rfl, rfl⟩
  | succ fuel ih =>
    intro msgs tcs usage st
    rw [runAgentLoop]
    simp only [callLLM, pushEvent]
    rw [hllm _ _]
    dsimp only
    rw [hcalls]
    simp only [List.isEmpty_cons, Bool.false_eq_true, if_false]
    rw [execCalls]
    rw [executeToolCall_src_ok callC src acts params v _ hargs hname hfetch]
    dsimp only
    rw [execCalls]
    dsimp only
    refine ⟨(ih _ _ _ _).1, ?_⟩
    rw [(ih _ _ _ _).2]
    show st.llmCalls + 1 + fuel = st.llmCalls + (fuel + 1)
    omega

/-- The always-succeeding weather source for the C1 scenario. -/
def srcC1 : Source :=
  { name := "get_weather", description := "Weather lookup",
    fetch := fun _ => .ok (.str "sunny") }

/-- A skill wired to the weather source. -/
def skillC1 : Skill := { id := "weather", instructions := "Report.", tools := ["get_weather"] }

/-- The LM stub completion that calls `get_weather` on every turn. -/
def llmC1Result : ChatCompletionResult :=
  { message := { role := "assistant",
                 toolCalls := [{ id := "call-1", type := "function",
                                 function := { name := "get_weather",
                                               arguments := .json (.obj [("city", .str "Oslo")]) } }] } }

/-- The SDK for the C1 scenario: two agent turns, tool-calling LM stub. -/
def cfgC1 : Config :=
  Config.withDefaults
    { llm := fun _ _ => .ok llmC1Result, skills := [skillC1], sources := [srcC1],
      maxAgentTurns := 2 }

/-- C1 counterexample: with `MaxAgentTurns = 2` and an LM stub that calls
the succeeding `get_weather` source on every turn, the turn fails with the
max-turns `INTERNAL_ERROR` whose `Details` payload is empty, although two
tool calls were executed in the meantime (two `toolRun` events in the trace,
two LM calls): contrary to the claim, the error does not carry the partial
tool-call record accumulated so far — the Go `return ChatResult{}, ...`
discards it. -/
theorem c1_record_dropped_cex :
    (executeAgenticMode cfgC1 { message := "weather in Oslo" } skillC1 "conv"
        { store := {} }).1 =
      .error (.sdkError { code := "INTERNAL_ERROR", message := "max agent turns exceeded",
                          cause := some "maximum agent turns exceeded", details := [] }) ∧
    ((executeAgenticMode cfgC1 { message := "weather in Oslo" } skillC1 "conv"
        { store := {} }).2.trace.filter
      (fun e => e = Event.toolRun "get_weather")).length = 2 ∧
    (executeAgenticMode cfgC1 { message := "weather in Oslo" } skillC1 "conv"
        { store := {} }).2.llmCalls = 2 := by
  exact ⟨rfl, by decide, rfl⟩

/-- C1 (amended): the agent loop makes at most `MaxAgentTurns` LM calls, and
when the LM never produces a final content response (stubbed as a provider
that always answers with the same single tool call to an always-succeeding
source) it makes exactly `MaxAgentTurns` LM calls and fails with the
`INTERNAL_ERROR` / `max agent turns exceeded` error whose `Details` payload
is empty: the partial tool-call record accumulated so far is *not* carried
on the error. -/
theorem c1_bounded_loop_drops_record (cfg : Config) (req : ChatRequest)
    (skill : Skill) (cid vn : String) (llmTools : List LLMTool) (src : Source)
    (acts : List Action) (fd : Option Json) (md : List (String × Json))
    (r0 : ChatCompletionResult) (callC : LLMToolCall)
    (params : List (String × Json)) (v : Json)
    (msgs : List LLMMessage) (tcs : List ToolCall) (usage : TokenUsage) (st : RunState)
    (hllm : ∀ n ctx, cfg.llm n ctx = .ok r0)
    (hcalls : r0.message.toolCalls = [callC])
    (hargs : parseObj callC.function.arguments = some params)
    (hname : src.name = callC.function.name)
    (hfetch : ∀ input, src.fetch input = .ok v) :
    (executeAgenticMode cfg req skill cid st).2.llmCalls ≤
        st.llmCalls + cfg.maxAgentTurns.toNat ∧
    (runAgentLoop cfg skill vn llmTools [src] acts fd req md cfg.maxAgentTurns.toNat
        msgs tcs usage st).1 =
      .error (.sdkError { code := "INTERNAL_ERROR", message := "max agent turns exceeded",
                          cause := some "maximum agent turns exceeded", details := [] }) ∧
    (runAgentLoop cfg skill vn llmTools [src] acts fd req md cfg.maxAgentTurns.toNat
        msgs tcs usage st).2.llmCalls = st.llmCalls + cfg.maxAgentTurns.toNat :=
  ⟨executeAgenticMode_llmCalls_le cfg req skill cid st,
   (runAgentLoop_exhausts cfg skill vn llmTools src acts fd req md r0 callC params v
      hllm hcalls hargs hname hfetch cfg.maxAgentTurns.toNat msgs tcs usage st).1,
   (runAgentLoop_exhausts cfg skill vn llmTools src acts fd req md r0 callC params v
      hllm hcalls hargs hname hfetch cfg.maxAgentTurns.toNat msgs tcs usage st).2⟩

/-- C1 witness: the amended statement at the concrete two-turn weather
scenario. -/
theorem c1_bounded_loop_drops_record_witness :
    (executeAgenticMode cfgC1 { message := "weather in Oslo" } skillC1 "conv"
        { store := {} }).2.llmCalls ≤ 0 + cfgC1.maxAgentTurns.toNat ∧
    (runAgentLoop cfgC1 skillC1 "" (buildLLMTools [srcC1] []) [srcC1] [] none
        { message := "weather in Oslo" } [] cfgC1.maxAgentTurns.toNat [] [] {}
        { store := {} }).1 =
      .error (.sdkError { code := "INTERNAL_ERROR", message := "max agent turns exceeded",
                          cause := some "maximum agent turns exceeded", details := [] }) ∧
    (runAgentLoop cfgC1 skillC1 "" (buildLLMTools [srcC1] []) [srcC1] [] none
        { message := "weather in Oslo" } [] cfgC1.maxAgentTurns.toNat [] [] {}
        { store := {} }).2.llmCalls = 0 + cfgC1.maxAgentTurns.toNat :=
  c1_bounded_loop_drops_record cfgC1 { message := "weather in Oslo" } skillC1 "conv" ""
    (buildLLMTools [srcC1] []) srcC1 [] none [] llmC1Result
    { id := "call-1", type := "function",
      function := { name := "get_weather", arguments := .json (.obj [("city", .str "Oslo")]) } }
    [("city", .str "Oslo")] (.str "sunny") [] [] {} { store := {} }
    (fun _ _ => rfl) rfl rfl rfl (fun _ => rfl)

/-! ## Claim C4 — where persistence sits relative to the LM calls -/

/-- Whether an event is one of the two persistence events. -/
def isPersistEvent : Event → Bool
  | .persistUser => true
  | .persistAssistant => true
  | _ => false

/-- `st'` extends `st`'s trace by execution events only: every appended
event is an LM call or a tool run, never a persistence event. -/
def ExecExtends (st st' : RunState) : Prop :=
  ∃ l, st'.trace = st.trace ++ l ∧ l.filter isPersistEvent = []

theorem execExtends_refl (st : RunState) : ExecExtends st st :=
  ⟨[], (List.append_nil _).symm, rfl⟩

theorem execExtends_trans {s1 s2 s3 : RunState} (h12 : ExecExtends s1 s2)
    (h23 : ExecExtends s2 s3) : ExecExtends s1 s3 := by
  obtain ⟨l, hl, hf⟩ := h12
  obtain ⟨m, hm, hg⟩ := h23
  exact ⟨l ++ m, by rw [hm, hl, List.append_assoc],
         by simp [List.filter_append, hf, hg]⟩

/-- A state with the same trace as an exec-extension is an exec-extension. -/
theorem execExtends_trace_eq {st st₁ st₂ : RunState} (h : ExecExtends st st₁)
    (he : st₂.trace = st₁.trace) : ExecExtends st st₂ := by
  obtain ⟨l, hl, hf⟩ := h
  exact ⟨l, by rw [he, hl], hf⟩

/-- Pushing one non-persistence event is an exec-extension. -/
theorem execExtends_push {st st' : RunState} (e : Event)
    (h : st'.trace = st.trace ++ [e]) (he : isPersistEvent e = false) :
    ExecExtends st st' := ⟨[e], h, by simp [he]⟩

/-- `callLLM` appends exactly the `lmCall` event. -/
theorem callLLM_execExtends (cfg : Config) (ctx : ChatCompletionContext) (st : RunState) :
    ExecExtends st (callLLM cfg ctx st).2 :=
  execExtends_push .lmCall rfl rfl

/-- `executeToolCall` appends at most a `toolRun` event. -/
theorem executeToolCall_execExtends (call : LLMToolCall) (srcs : List Source)
    (acts : List Action) (st : RunState) :
    ExecExtends st (executeToolCall call srcs acts st).2 := by
  unfold executeToolCall
  dsimp only
  repeat' split
  all_goals first
    | exact execExtends_refl _
    | exact execExtends_push _ rfl rfl

/-- The per-turn tool-call loop appends only `toolRun` events. -/
theorem execCalls_execExtends (vn : String) (usage : TokenUsage) (srcs : List Source)
    (acts : List Action) :
    ∀ (calls : List LLMToolCall) (msgs : List LLMMessage) (tcs : List ToolCall)
      (st : RunState), ExecExtends st (execCalls vn usage srcs acts calls msgs tcs st).2 := by
  intro calls
  induction calls with
  | nil => intro msgs tcs st; exact execExtends_refl _
  | cons c rest ih =>
    intro msgs tcs st
    rw [execCalls]
    rcases hx : executeToolCall c srcs acts st with ⟨outcome, st₂⟩
    have hext : ExecExtends st st₂ := by
      have := executeToolCall_execExtends c srcs acts st
      rw [hx] at this
      exact this
    cases outcome with
    | confirmation tc => exact execExtends_trace_eq hext rfl
    | failed tc e => exact hext
    | ok result tc => exact execExtends_trans hext (ih _ _ _)

/-- The agent loop appends only `lmCall` and `toolRun` events. -/
theorem runAgentLoop_execExtends (cfg : Config) (skill : Skill) (vn : String)
    (llmTools : List LLMTool) (srcs : List Source) (acts : List Action)
    (fd : Option Json) (req : ChatRequest) (md : List (String × Json)) :
    ∀ (fuel : Nat) (msgs : List LLMMessage) (tcs : List ToolCall) (usage : TokenUsage)
      (st : RunState),
      ExecExtends st (runAgentLoop cfg skill vn llmTools srcs acts fd req md
        fuel msgs tcs usage st).2 := by
  intro fuel
  induction fuel with
  | zero => intro msgs tcs usage st; exact execExtends_refl _
  | succ fuel ih =>
    intro msgs tcs usage st
    rw [runAgentLoop]
    rcases hc : callLLM cfg { model := cfg.model, messages := msgs, tools := llmTools, responseFormat := buildResponseFormat skill } st with ⟨res, st₂⟩
    have h2 : ExecExtends st st₂ := by
      have := callLLM_execExtends cfg { model := cfg.model, messages := msgs, tools := llmTools, responseFormat := buildResponseFormat skill } st
      rw [hc] at this
      exact this
    cases res with
    | error e => exact h2
    | ok llmResult =>
      by_cases hb : llmResult.message.toolCalls.isEmpty
      · simp only [hb, if_true]
        split
        · exact h2
        · split
          · exact h2
          · exact execExtends_trace_eq h2 rfl
      · simp only [hb, Bool.false_eq_true, if_false]
        rcases he : execCalls vn (addUsage usage llmResult.usage) srcs acts llmResult.message.toolCalls (msgs ++ [llmResult.message]) tcs st₂ with ⟨co, st₃⟩
        have h3 : ExecExtends st₂ st₃ := by
          have := execCalls_execExtends vn (addUsage usage llmResult.usage) srcs acts llmResult.message.toolCalls (msgs ++ [llmResult.message]) tcs st₂
          rw [he] at this
          exact this
        cases co with
        | done msgs' tcs' => exact execExtends_trans (execExtends_trans h2 h3) (ih _ _ _ _)
        | shortCircuit r => exact execExtends_trans h2 h3
        | failed f => exact execExtends_trans h2 h3

/-- Direct skill execution appends only its one `lmCall` event. -/
theorem ExecuteSkill_execExtends (cfg : Config) (skillID : String) (sreq : SkillRequest)
    (st : RunState) : ExecExtends st (ExecuteSkill cfg skillID sreq st).2 := by
  unfold ExecuteSkill
  rcases hs : skillsGet cfg.skills skillID with _ | skill
  · exact execExtends_refl _
  · dsimp only
    rcases hv : selectVariant skill sreq.variant (ctxString sreq.context "userId" "") st.clock
      with msg | variant
    · exact execExtends_refl _
    · dsimp only
      rcases hc : callLLM cfg { model := cfg.model, messages := buildPrompt skill variant sreq.message sreq.data sreq.context, responseFormat := buildResponseFormat skill } st with ⟨res, st₂⟩
      have h2 : ExecExtends st st₂ := by
        have := callLLM_execExtends cfg { model := cfg.model, messages := buildPrompt skill variant sreq.message sreq.data sreq.context, responseFormat := buildResponseFormat skill } st
        rw [hc] at this
        exact this
      cases res with
      | error e => exact h2
      | ok llmResult =>
        dsimp only
        rcases hvr : validateResponse skill llmResult.message.content with e | u
        · exact h2
        · cases u
          exact h2

/-- Recording the expert fetcher's tool calls appends only `toolRun`
events. -/
theorem foldl_pushEvent_execExtends (tcs : List ToolCall) :
    ∀ st : RunState,
      ExecExtends st (tcs.foldl (fun s tc => pushEvent s (.toolRun tc.name)) st) := by
  induction tcs with
  | nil => intro st; exact execExtends_refl _
  | cons tc rest ih =>
    intro st
    rw [List.foldl_cons]
    exact execExtends_trans (execExtends_push (Event.toolRun tc.name) rfl rfl) (ih _)

/-- Expert-mode execution appends only `lmCall` and `toolRun` events. -/
theorem executeExpertMode_execExtends (cfg : Config) (req : ChatRequest) (skill : Skill)
    (cid : String) (st : RunState) :
    ExecExtends st (executeExpertMode cfg req skill cid st).2 := by
  unfold executeExpertMode
  dsimp only
  rcases hf : expertFetchStep (cfg.experts.find? (fun e => e.skillID = skill.id)) { message := req.message, entityID := req.entityID, context := req.context, conversationID := cid, conversationHistory := storeGetMessages st.store cid 20 } with f | ⟨fetched, fetchCalls⟩
  · exact execExtends_refl _
  · dsimp only
    have h1 : ExecExtends st
        (fetchCalls.foldl (fun s tc => pushEvent s (.toolRun tc.name)) st) :=
      foldl_pushEvent_execExtends fetchCalls st
    rcases hp : preHookStep cfg skill req.message req.context fetched
      with f | ⟨fetchedData, metadata⟩
    · exact h1
    · dsimp only
      generalize hes : ExecuteSkill cfg skill.id { message := req.message, data := fetchedData, context := req.context, variant := req.variant, conversationID := cid } (fetchCalls.foldl (fun s tc => pushEvent s (.toolRun tc.name)) st) = pr
      obtain ⟨sres, st₂⟩ := pr
      have h2 : ExecExtends (fetchCalls.foldl (fun s tc => pushEvent s (.toolRun tc.name)) st) st₂ := by
        have := ExecuteSkill_execExtends cfg skill.id { message := req.message, data := fetchedData, context := req.context, variant := req.variant, conversationID := cid } (fetchCalls.foldl (fun s tc => pushEvent s (.toolRun tc.name)) st)
        rw [hes] at this
        exact this
      cases sres with
      | error f => exact execExtends_trans h1 h2
      | ok skillResult =>
        dsimp only
        rcases hph : postHookStep cfg skill req.message req.context fetchedData metadata skillResult.variant skillResult.tokensUsed skillResult.response with f | resp
        · exact execExtends_trans h1 h2
        · dsimp only
          rcases hpp : expertPostProcessStep (cfg.experts.find? (fun e => e.skillID = skill.id)) { message := req.message, entityID := req.entityID, context := req.context, conversationID := cid, conversationHistory := storeGetMessages st.store cid 20 } { skillResult with response := resp } fetchedData with f | ⟨response, suggestedAction⟩
          · exact execExtends_trans h1 h2
          · exact execExtends_trace_eq (execExtends_trans h1 h2) rfl

/-- Agentic-mode execution appends only `lmCall` and `toolRun` events. -/
theorem executeAgenticMode_execExtends (cfg : Config) (req : ChatRequest) (skill : Skill)
    (cid : String) (st : RunState) :
    ExecExtends st (executeAgenticMode cfg req skill cid st).2 := by
  unfold executeAgenticMode
  rcases hv : selectVariant skill req.variant (ctxString req.context "userId" "") st.clock
    with msg | variant
  · exact execExtends_refl _
  · rcases ht : toolsGetForSkill cfg.sources cfg.actions skill.tools with e | ⟨sources, actions⟩
    · exact execExtends_refl _
    · dsimp only
      rcases hpre : preHookStep cfg skill req.message req.context none
        with f | ⟨fetchedData, metadata⟩
      · exact execExtends_refl _
      · dsimp only
        exact runAgentLoop_execExtends cfg skill variant.variant _ sources actions
          fetchedData req metadata cfg.maxAgentTurns.toNat _ [] {} st

/-- `storeMessages` appends exactly the user persistence event followed by
the assistant persistence event. -/
theorem storeMessages_trace (cid : String) (req : ChatRequest) (result : ChatResult)
    (st : RunState) :
    (storeMessages cid req result st).trace =
      st.trace ++ [.persistUser, .persistAssistant] := by
  simp [storeMessages, newId, pushEvent]

/-- On a successful dispatch, the final trace is the pre-dispatch trace,
then execution events only, then the two persistence events — in that
order. -/
theorem chatDispatch_persist (cfg : Config) (req : ChatRequest) (skill : Skill)
    (cid : String) (clk : Nat) (st : RunState) (r : ChatResult)
    (hok : (chatDispatch cfg req skill cid clk st).1 = .ok r) :
    ∃ exec, (chatDispatch cfg req skill cid clk st).2.trace =
        st.trace ++ exec ++ [.persistUser, .persistAssistant] ∧
      exec.filter isPersistEvent = [] := by
  unfold chatDispatch at hok ⊢
  dsimp only at hok ⊢
  by_cases hm : determineMode cfg req skill = ModeExpert
  · rw [if_pos hm] at hok ⊢
    generalize hx : executeExpertMode cfg req skill cid st = pr at hok ⊢
    obtain ⟨eres, st₂⟩ := pr
    have hext : ExecExtends st st₂ := by
      have := executeExpertMode_execExtends cfg req skill cid st
      rw [hx] at this
      exact this
    cases eres with
    | error f => simp at hok
    | ok result =>
      obtain ⟨l, hl, hf⟩ := hext
      refine ⟨l, ?_, hf⟩
      dsimp only
      rw [storeMessages_trace, hl]
  · rw [if_neg hm] at hok ⊢
    by_cases hm2 : determineMode cfg req skill = ModeAgentic
    · rw [if_pos hm2] at hok ⊢
      generalize hx : executeAgenticMode cfg req skill cid st = pr at hok ⊢
      obtain ⟨eres, st₂⟩ := pr
      have hext : ExecExtends st st₂ := by
        have := executeAgenticMode_execExtends cfg req skill cid st
        rw [hx] at this
        exact this
      cases eres with
      | error f => simp at hok
      | ok result =>
        obtain ⟨l, hl, hf⟩ := hext
        refine ⟨l, ?_, hf⟩
        dsimp only
        rw [storeMessages_trace, hl]
    · rw [if_neg hm2] at hok
      simp at hok

/-- C4 (amended): on every successful chat turn the two persistence events
are the *last* two events of the request: the trace is the initial trace,
then execution events only (LM calls and tool runs, no persistence), then
the user-message persistence immediately followed by the assistant-message
persistence.  Assistant persistence therefore does follow successful
response assembly, but user-message persistence follows — rather than
precedes — every LM call of the request. -/
theorem c4_persist_after_execution (cfg : Config) (req : ChatRequest) (st : RunState)
    (r : ChatResult) (hok : (chat cfg req st).1 = .ok r) :
    ∃ exec, (chat cfg req st).2.trace =
        st.trace ++ exec ++ [.persistUser, .persistAssistant] ∧
      exec.filter isPersistEvent = [] := by
  unfold chat at hok ⊢
  by_cases hc : req.conversationID = ""
  · rw [if_pos hc] at hok ⊢
    simp only [newId] at hok ⊢
    rcases hr : routeToSkill cfg req with f | skill
    · rw [hr] at hok
      simp at hok
    · rw [hr] at hok
      dsimp only at hok ⊢
      exact chatDispatch_persist cfg req skill (mkId st.nextId) st.clock _ r hok
  · rw [if_neg hc] at hok ⊢
    rcases hr : routeToSkill cfg req with f | skill
    · rw [hr] at hok
      simp at hok
    · rw [hr] at hok
      dsimp only at hok ⊢
      exact chatDispatch_persist cfg req skill req.conversationID st.clock st r hok

/-- The C4 scenario SDK: a plain expert-mode skill answered by a content LM
stub. -/
def cfgC4 : Config :=
  Config.withDefaults
    { llm := fun _ _ => .ok llmC9Result, skills := [{ id := "faq", instructions := "A." }] }

/-- The C4 scenario request. -/
def reqC4 : ChatRequest := { message := "hello", skillID := "faq", conversationID := "conv1" }

/-- The result the C4 scenario run produces. -/
def resC4 : ChatResult :=
  { conversationID := "conv1", messageID := mkId 0, skillID := "faq", variant := "",
    mode := "expert", toolCalls := [], response := some (.text "ok"),
    suggestedAction := none, tokensUsed := {}, duration := 1 }

/-- C4 counterexample: a successful turn whose full event trace is
`[lmCall, persistUser, persistAssistant]` — the user-message persistence
happens *after* the request's (first and only) LM call, refuting the claim
that it strictly precedes it. -/
theorem c4_user_persist_after_lm_cex :
    (chat cfgC4 reqC4 { store := {} }).2.trace =
      [Event.lmCall, Event.persistUser, Event.persistAssistant] ∧
    (chat cfgC4 reqC4 { store := {} }).1 = .ok resC4 := by
  exact ⟨rfl, rfl⟩

/-- C4 witness: the amended statement at the concrete expert-mode run. -/
theorem c4_persist_after_execution_witness :
    ∃ exec, (chat cfgC4 reqC4 { store := {} }).2.trace =
        ([] : List Event) ++ exec ++ [Event.persistUser, Event.persistAssistant] ∧
      exec.filter isPersistEvent = [] :=
  c4_persist_after_execution cfgC4 reqC4 { store := {} } resC4 rfl

end AiChatSdk
